import Mathlib

/-!
Verification of the stdio message-transport layer of the UpNote MCP server
(`upnote_mcp_server.py`) and its debug wrapper (`upnote_mcp_debugger.py`).

Modelling conventions (shallow embedding):
* Wire data is `List Nat` of bytes (0–255); decoded text is `List Nat` of
  Unicode code points.  `strB` turns an ASCII string literal into either.
* Python `dict` values decoded from JSON are association lists in declaration
  order; `dict.get` returns the value of the *last* occurrence of a key, as
  CPython's `json.loads` builds dicts by repeated assignment.
* JSON values are modelled by the inductive `Json` below.  Numbers are
  restricted to integers: the repository only ever serialises integers, and
  floating point is outside the scope of this embedding (the model parser
  rejects fractional/exponent forms and the `NaN`/`Infinity` extensions, which
  CPython would parse to floats).
* `json.dumps(payload, ensure_ascii=False, separators=(",", ":"))` followed by
  UTF-8 encoding is modelled by `serJ`: compact output, `"`/`\`/control
  characters escaped (with the `\b \t \n \f \r` short forms and lowercase
  `\u00xx` otherwise), and all other code points emitted as raw UTF-8 bytes.
* `json.loads(bytes.decode("utf-8"))` is modelled by `pyLoads`: a fuel-indexed
  recursive-descent parser over the byte list that decodes UTF-8 inside
  strings, enforces strict mode (raw control characters in strings rejected),
  handles `\uXXXX` escapes including surrogate-pair combination, and requires
  the whole input to be consumed up to trailing whitespace.
* Exceptions that escape a Python function are modelled with `Except`, where
  the error value is the exception text used by the code's `f"... {e}"`
  interpolations.
-/

namespace Upnote

/-- Byte strings and decoded text, as lists of natural numbers. -/
abbrev Bytes := List Nat

/-- Code points of a string literal (for ASCII literals this is also the
UTF-8 byte string). -/
def strB (s : String) : Bytes := s.toList.map Char.toNat

/-- Python's ASCII whitespace set, as used by `bytes.strip`/`lstrip`/`rstrip`
and `str.strip` on ASCII data. -/
def pyWs (c : Nat) : Bool :=
  c = 32 || c = 9 || c = 10 || c = 13 || c = 11 || c = 12

/-- Whitespace skipped by `json.loads` between tokens. -/
def jsonWs (c : Nat) : Bool := c = 32 || c = 9 || c = 10 || c = 13

/-- Model of `bytes.lstrip()`. -/
def lstripB (b : Bytes) : Bytes := b.dropWhile pyWs

/-- Model of `bytes.rstrip()` / `str.strip()`'s right half. -/
def rstripB (b : Bytes) : Bytes := (b.reverse.dropWhile pyWs).reverse

/-- Model of `bytes.strip()` / `str.strip()` on ASCII data. -/
def stripB (b : Bytes) : Bytes := rstripB (lstripB b)

/-- Model of `line.rstrip(b"\r\n")`: drop trailing CR and LF bytes. -/
def rstripCRLF (b : Bytes) : Bytes :=
  (b.reverse.dropWhile (fun c => c = 13 || c = 10)).reverse

/-- Whitespace skipping inside `json.loads`. -/
def skipWs (b : Bytes) : Bytes := b.dropWhile jsonWs

/-- Model of `bytes.find(pat)` (first index at which `pat` occurs), returning
`none` for Python's `-1`. -/
def findSub (pat : Bytes) : Bytes → Option Nat
  | [] => if pat = [] then some 0 else none
  | c :: rest =>
      if pat.isPrefixOf (c :: rest) then some 0
      else (findSub pat rest).map (· + 1)

/-- Model of `pat in b` for bytes. -/
def containsSub (pat b : Bytes) : Bool := (findSub pat b).isSome

/-- Fuel-indexed worker for `splitCRLF` (structural recursion, so the kernel
can evaluate it; the fuel never runs out because each step drops two bytes). -/
def splitCRLFF : Nat → Bytes → List Bytes
  | 0, b => [b]
  | fuel + 1, b =>
      match findSub [13, 10] b with
      | none => [b]
      | some i => b.take i :: splitCRLFF fuel (b.drop (i + 2))

/-- Model of `bytes.split(b"\r\n")`. -/
def splitCRLF (b : Bytes) : List Bytes := splitCRLFF b.length b

/-- Fuel-indexed worker for `natDigits` (each step divides by 10, so fuel
`m + 1` always suffices). -/
def natDigitsF : Nat → Nat → Bytes
  | 0, _ => []
  | fuel + 1, m =>
      if m < 10 then [48 + m] else natDigitsF fuel (m / 10) ++ [48 + m % 10]

/-- Decimal digit bytes of a natural number, most significant first (the bytes
of Python's `str(n)` / `"{n}"` for `n ≥ 0`). -/
def natDigits (m : Nat) : Bytes := natDigitsF (m + 1) m

/-- Bytes of Python's `str(i)` for an integer (used by the compact JSON
serialiser and by `f"Content-Length: {n}"`). -/
def intSer (n : Int) : Bytes :=
  if n < 0 then 45 :: natDigits n.natAbs else natDigits n.natAbs

/-- Lowercase hexadecimal digit byte for a nibble, as produced by
`"\u\x7b0:04x\x7d".format(i)` in CPython's escape table. -/
def hexDigit (n : Nat) : Nat := if n < 10 then 48 + n else 87 + n

/-- UTF-8 encoding of one code point (valid input assumed: below 0x110000 and
not a surrogate; `str.encode("utf-8")` would raise on surrogates). -/
def utf8EncodeChar (c : Nat) : Bytes :=
  if c < 0x80 then [c]
  else if c < 0x800 then [192 + c / 64, 128 + c % 64]
  else if c < 0x10000 then [224 + c / 4096, 128 + c / 64 % 64, 128 + c % 64]
  else [240 + c / 262144, 128 + c / 4096 % 64, 128 + c / 64 % 64, 128 + c % 64]

/-- Bytes contributed by one string character under
`json.dumps(..., ensure_ascii=False)` followed by UTF-8 encoding: the CPython
`ESCAPE` table escapes `"`, `\` and control characters (five short escapes,
lowercase `\u00xx` otherwise); everything else is emitted raw. -/
def escapeCharBytes (c : Nat) : Bytes :=
  if c = 34 then [92, 34]
  else if c = 92 then [92, 92]
  else if c = 8 then [92, 98]
  else if c = 9 then [92, 116]
  else if c = 10 then [92, 110]
  else if c = 12 then [92, 102]
  else if c = 13 then [92, 114]
  else if c < 32 then [92, 117, 48, 48, hexDigit (c / 16), hexDigit (c % 16)]
  else utf8EncodeChar c

/-- Serialised form of a JSON string (UTF-8 bytes, quotes included). -/
def serStrB (s : List Nat) : Bytes := 34 :: (s.flatMap escapeCharBytes ++ [34])

/-- JSON values as produced and consumed by the transport layer.  Strings are
lists of Unicode code points; objects are insertion-ordered association
lists (the model of Python `dict`). -/
inductive Json where
  | null
  | bool (b : Bool)
  | num (n : Int)
  | str (s : List Nat)
  | arr (elems : List Json)
  | obj (members : List (List Nat × Json))

/-- Shorthand for a JSON string from an ASCII literal. -/
def jstr (s : String) : Json := .str (strB s)

mutual

/-- Model of `json.dumps(v, ensure_ascii=False, separators=(",", ":"))`
followed by `.encode("utf-8")`: compact byte serialisation. -/
def serJ : Json → Bytes
  | .null => [110, 117, 108, 108]
  | .bool true => [116, 114, 117, 101]
  | .bool false => [102, 97, 108, 115, 101]
  | .num n => intSer n
  | .str s => serStrB s
  | .arr es => 91 :: (serElems es ++ [93])
  | .obj ms => 123 :: (serMembers ms ++ [125])

/-- Comma-joined serialised elements of an array. -/
def serElems : List Json → Bytes
  | [] => []
  | e :: es => serJ e ++ serElemSep es

/-- Continuation of `serElems` after the first element. -/
def serElemSep : List Json → Bytes
  | [] => []
  | e :: es => 44 :: (serJ e ++ serElemSep es)

/-- Comma-joined serialised `key:value` members of an object. -/
def serMembers : List (List Nat × Json) → Bytes
  | [] => []
  | (k, v) :: ms => serStrB k ++ (58 :: (serJ v ++ serMemberSep ms))

/-- Continuation of `serMembers` after the first member. -/
def serMemberSep : List (List Nat × Json) → Bytes
  | [] => []
  | (k, v) :: ms => 44 :: (serStrB k ++ (58 :: (serJ v ++ serMemberSep ms)))

end

/-- A code point Python can UTF-8-encode: in range and not a lone surrogate. -/
def validCp (c : Nat) : Bool := c < 1114112 && !(55296 ≤ c && c < 57344)

/-- All code points of a decoded string are encodable. -/
def validStr (s : List Nat) : Bool := s.all validCp

mutual

/-- A `Json` value every string of which Python can serialise and UTF-8
encode (the model of "JSON-serialisable"). -/
def validJ : Json → Bool
  | .null => true
  | .bool _ => true
  | .num _ => true
  | .str s => validStr s
  | .arr es => validElems es
  | .obj ms => validMembers ms

/-- Validity of a list of array elements. -/
def validElems : List Json → Bool
  | [] => true
  | e :: es => validJ e && validElems es

/-- Validity of an object's members (keys and values). -/
def validMembers : List (List Nat × Json) → Bool
  | [] => true
  | (k, v) :: ms => validStr k && validJ v && validMembers ms

end

/-! ### Model of `json.loads`

CPython's decoder, restricted as documented at the top of this file: numbers
must be integers (a fraction, exponent, or one of the `NaN`/`Infinity`
extensions makes the model parser fail where CPython would produce a float),
strict mode is on (raw control characters inside strings are rejected), and
UTF-8 decoding of the input bytes is fused into the string scanner (both
pipelines reject the same inputs: bytes outside strings that are not valid
ASCII JSON tokens fail either way). -/

/-- Prepend a decoded character to a string-scanner result. -/
def mapCons (c : Nat) : Option (List Nat × Bytes) → Option (List Nat × Bytes)
  | some (s, r) => some (c :: s, r)
  | none => none

/-- Value of one hexadecimal digit byte, as accepted by `\uXXXX` escapes. -/
def hexVal (c : Nat) : Option Nat :=
  if 48 ≤ c ∧ c ≤ 57 then some (c - 48)
  else if 97 ≤ c ∧ c ≤ 102 then some (c - 87)
  else if 65 ≤ c ∧ c ≤ 70 then some (c - 55)
  else none

/-- Decode one backslash escape (input starts at the byte after the
backslash); returns the code point and the remaining bytes.  Models
`py_scanstring`'s escape handling, including CPython's surrogate-pair
combination rule for `\uXXXX`. -/
def decodeEsc : Bytes → Option (Nat × Bytes)
  | [] => none
  | e :: r =>
      if e = 34 then some (34, r)
      else if e = 92 then some (92, r)
      else if e = 47 then some (47, r)
      else if e = 98 then some (8, r)
      else if e = 102 then some (12, r)
      else if e = 110 then some (10, r)
      else if e = 114 then some (13, r)
      else if e = 116 then some (9, r)
      else if e = 117 then
        match r with
        | a :: b :: c :: d :: r2 =>
            match hexVal a, hexVal b, hexVal c, hexVal d with
            | some x, some y, some z, some w =>
                let cp := x * 4096 + y * 256 + z * 16 + w
                if 55296 ≤ cp ∧ cp ≤ 56319 then
                  match r2 with
                  | 92 :: 117 :: a2 :: b2 :: c2 :: d2 :: r3 =>
                      match hexVal a2, hexVal b2, hexVal c2, hexVal d2 with
                      | some x2, some y2, some z2, some w2 =>
                          let lo := x2 * 4096 + y2 * 256 + z2 * 16 + w2
                          if 56320 ≤ lo ∧ lo ≤ 57343 then
                            some (65536 + (cp - 55296) * 1024 + (lo - 56320), r3)
                          else some (cp, r2)
                      | _, _, _, _ => none
                  | 92 :: 117 :: _ => none
                  | _ => some (cp, r2)
                else some (cp, r2)
            | _, _, _, _ => none
        | _ => none
      else none

/-- Decode one non-escape character of a string body as UTF-8 (strict:
raw control characters and malformed sequences are rejected).  The input
starts at the lead byte, which is not `"` or `\`. -/
def decodeRaw (c : Nat) (rest : Bytes) : Option (Nat × Bytes) :=
  if c < 32 then none
  else if c < 128 then some (c, rest)
  else if 194 ≤ c ∧ c ≤ 223 then
    match rest with
    | c2 :: r2 =>
        if 128 ≤ c2 ∧ c2 ≤ 191 then some ((c - 192) * 64 + (c2 - 128), r2)
        else none
    | [] => none
  else if 224 ≤ c ∧ c ≤ 239 then
    match rest with
    | c2 :: c3 :: r2 =>
        if (128 ≤ c2 ∧ c2 ≤ 191) ∧ (128 ≤ c3 ∧ c3 ≤ 191) ∧
            (c = 224 → 160 ≤ c2) ∧ (c = 237 → c2 ≤ 159) then
          some ((c - 224) * 4096 + (c2 - 128) * 64 + (c3 - 128), r2)
        else none
    | _ => none
  else if 240 ≤ c ∧ c ≤ 244 then
    match rest with
    | c2 :: c3 :: c4 :: r2 =>
        if (128 ≤ c2 ∧ c2 ≤ 191) ∧ (128 ≤ c3 ∧ c3 ≤ 191) ∧
            (128 ≤ c4 ∧ c4 ≤ 191) ∧
            (c = 240 → 144 ≤ c2) ∧ (c = 244 → c2 ≤ 143) then
          some ((c - 240) * 262144 + (c2 - 128) * 4096 +
              (c3 - 128) * 64 + (c4 - 128), r2)
        else none
    | _ => none
  else none

/-- Fuel-indexed scanner for a JSON string body after the opening quote:
decode UTF-8, undo escapes, stop at the closing quote.  Every step consumes
at least one byte and one unit of fuel. -/
def parseStrContentF : Nat → Bytes → Option (List Nat × Bytes)
  | 0, _ => none
  | _ + 1, [] => none
  | fuel + 1, c :: rest =>
      if c = 34 then some ([], rest)
      else if c = 92 then
        match decodeEsc rest with
        | some (cp, r2) => mapCons cp (parseStrContentF fuel r2)
        | none => none
      else
        match decodeRaw c rest with
        | some (cp, r2) => mapCons cp (parseStrContentF fuel r2)
        | none => none

/-- Scan a JSON string body after the opening quote.  Models `py_scanstring`
(strict) composed with `bytes.decode("utf-8")`. -/
def parseStrContent (b : Bytes) : Option (List Nat × Bytes) :=
  parseStrContentF (b.length + 1) b

/-- Consume a run of decimal digit bytes, accumulating the value. -/
def parseDigitsRun (acc : Nat) : Bytes → Nat × Bytes
  | [] => (acc, [])
  | c :: rest =>
      if 48 ≤ c ∧ c ≤ 57 then parseDigitsRun (acc * 10 + (c - 48)) rest
      else (acc, c :: rest)

/-- The integer part of a JSON number (`0|[1-9][0-9]*`, the scanner's
`NUMBER_RE` integer group). -/
def parseIntPart : Bytes → Option (Nat × Bytes)
  | [] => none
  | c :: rest =>
      if c = 48 then some (0, rest)
      else if 49 ≤ c ∧ c ≤ 57 then some (parseDigitsRun (c - 48) rest)
      else none

/-- After the integer part: a fraction or exponent would make the value a
float, which this model does not cover, so it refuses. -/
def numFinish (m : Int) : Bytes → Option (Json × Bytes)
  | [] => some (.num m, [])
  | c :: rest =>
      if c = 46 ∨ c = 101 ∨ c = 69 then none
      else some (.num m, c :: rest)

/-- Scan a JSON number (integer-valued only, see `numFinish`). -/
def parseNum : Bytes → Option (Json × Bytes)
  | [] => none
  | c :: rest =>
      if c = 45 then
        match parseIntPart rest with
        | some (m, r) => numFinish (-(m : Int)) r
        | none => none
      else
        match parseIntPart (c :: rest) with
        | some (m, r) => numFinish (m : Int) r
        | none => none

mutual

/-- Fuel-indexed model of the CPython `scan_once` value scanner.  Skips
whitespace, then dispatches on the first byte. -/
def parseVal : Nat → Bytes → Option (Json × Bytes)
  | 0, _ => none
  | fuel + 1, input =>
      match skipWs input with
      | [] => none
      | c :: r =>
          if c = 110 then
            match r with
            | 117 :: 108 :: 108 :: r2 => some (.null, r2)
            | _ => none
          else if c = 116 then
            match r with
            | 114 :: 117 :: 101 :: r2 => some (.bool true, r2)
            | _ => none
          else if c = 102 then
            match r with
            | 97 :: 108 :: 115 :: 101 :: r2 => some (.bool false, r2)
            | _ => none
          else if c = 34 then
            match parseStrContent r with
            | some (s, r2) => some (.str s, r2)
            | none => none
          else if c = 91 then
            match skipWs r with
            | 93 :: r2 => some (.arr [], r2)
            | _ =>
                match parseVal fuel r with
                | some (v, r2) =>
                    match parseArrTail fuel r2 with
                    | some (vs, r3) => some (.arr (v :: vs), r3)
                    | none => none
                | none => none
          else if c = 123 then
            match skipWs r with
            | 125 :: r2 => some (.obj [], r2)
            | _ =>
                match parseMember fuel r with
                | some (k, v, r2) =>
                    match parseObjTail fuel r2 with
                    | some (ms, r3) => some (.obj ((k, v) :: ms), r3)
                    | none => none
                | none => none
          else parseNum (c :: r)

/-- One `"key": value` member of an object. -/
def parseMember : Nat → Bytes → Option (List Nat × Json × Bytes)
  | 0, _ => none
  | fuel + 1, b =>
      match skipWs b with
      | 34 :: r =>
          match parseStrContent r with
          | some (k, r2) =>
              match skipWs r2 with
              | 58 :: r3 =>
                  match parseVal fuel r3 with
                  | some (v, r4) => some (k, v, r4)
                  | none => none
              | _ => none
          | none => none
      | _ => none

/-- Elements of an array after the first: `(',' value)* ']'`. -/
def parseArrTail : Nat → Bytes → Option (List Json × Bytes)
  | 0, _ => none
  | fuel + 1, b =>
      match skipWs b with
      | 93 :: r => some ([], r)
      | 44 :: r =>
          match parseVal fuel r with
          | some (v, r2) =>
              match parseArrTail fuel r2 with
              | some (vs, r3) => some (v :: vs, r3)
              | none => none
          | none => none
      | _ => none

/-- Members of an object after the first: `(',' member)*` then a brace. -/
def parseObjTail : Nat → Bytes → Option (List (List Nat × Json) × Bytes)
  | 0, _ => none
  | fuel + 1, b =>
      match skipWs b with
      | 125 :: r => some ([], r)
      | 44 :: r =>
          match parseMember fuel r with
          | some (k, v, r2) =>
              match parseObjTail fuel r2 with
              | some (ms, r3) => some ((k, v) :: ms, r3)
              | none => none
          | none => none
      | _ => none

end

/-- Model of `json.loads(b.decode("utf-8"))`: parse one value and require
only whitespace to remain. -/
def pyLoads (b : Bytes) : Option Json :=
  match parseVal (b.length + 1) b with
  | some (v, rest) => if skipWs rest = [] then some v else none
  | none => none

/-! ### Framing layer

`try_parse_ndjson`, `try_parse_lsp` and `sniff_and_summarize` from
`upnote_mcp_debugger.py`, and the `_write_ndjson` / `_write_lsp` encoders from
`upnote_mcp_server.py`. -/

/-- The two wire framings. -/
inductive Framing where
  | ndjson
  | lsp
deriving DecidableEq

/-- Digits-with-underscores tail of CPython's `int()` literal grammar. -/
def intDigitsRest (acc : Nat) : Bytes → Option Nat
  | [] => some acc
  | c :: rest =>
      if 48 ≤ c ∧ c ≤ 57 then intDigitsRest (acc * 10 + (c - 48)) rest
      else if c = 95 then
        match rest with
        | d :: rest2 =>
            if 48 ≤ d ∧ d ≤ 57 then intDigitsRest (acc * 10 + (d - 48)) rest2
            else none
        | [] => none
      else none

/-- An unsigned run of digits (underscored groups allowed, as `int()`
accepts), requiring at least one digit and full consumption. -/
def unsignedIntParse : Bytes → Option Nat
  | [] => none
  | c :: rest =>
      if 48 ≤ c ∧ c ≤ 57 then intDigitsRest (c - 48) rest
      else none

/-- Model of Python `int(b)` on a bytes argument: surrounding ASCII
whitespace stripped, optional sign, decimal digits; `none` models the
`ValueError` the callers catch. -/
def pyIntParse (b : Bytes) : Option Int :=
  match stripB b with
  | 43 :: r => (unsignedIntParse r).map (fun m => (m : Int))
  | 45 :: r => (unsignedIntParse r).map (fun m => -(m : Int))
  | r => (unsignedIntParse r).map (fun m => (m : Int))

/-- Python `dict` assignment `d[k] = v`: overwrite in place or append. -/
def dictSet (d : List (Bytes × Bytes)) (k v : Bytes) : List (Bytes × Bytes) :=
  match d with
  | [] => [(k, v)]
  | (k0, v0) :: rest =>
      if k0 = k then (k0, v) :: rest else (k0, v0) :: dictSet rest k v

/-- Python `dict.get(k)` on the association-list model. -/
def dictGet (d : List (Bytes × Bytes)) (k : Bytes) : Option Bytes :=
  match d with
  | [] => none
  | (k0, v0) :: rest => if k0 = k then some v0 else dictGet rest k

/-- Model of `bytes.lower()`. -/
def bytesLower (b : Bytes) : Bytes :=
  b.map (fun c => if 65 ≤ c ∧ c ≤ 90 then c + 32 else c)

/-- The header loop of `try_parse_lsp`: skip empty lines, split each
remaining line at its first colon, strip and lowercase the key. -/
def parseHeaderLines (lines : List Bytes) : List (Bytes × Bytes) :=
  lines.foldl
    (fun d line =>
      if line = [] then d
      else
        match findSub [58] line with
        | some i =>
            dictSet d (bytesLower (stripB (line.take i))) (stripB (line.drop (i + 1)))
        | none => d)
    []

/-- Model of `try_parse_ndjson` (`upnote_mcp_debugger.py`): if the buffer
holds a full line, return it with trailing CR/LF stripped, and the count of
consumed bytes. -/
def try_parse_ndjson (buffer : Bytes) : Option (Bytes × Nat) :=
  match findSub [10] buffer with
  | none => none
  | some nl => some (rstripCRLF (buffer.take (nl + 1)), nl + 1)

/-- Model of `try_parse_lsp` (`upnote_mcp_debugger.py`): find the header
terminator, parse `Key: Value` header lines, require a positive
`Content-Length`, and return the body with the consumed byte count. -/
def try_parse_lsp (buffer : Bytes) : Option (Bytes × Nat) :=
  match findSub [13, 10, 13, 10] buffer with
  | none => none
  | some sep =>
      let headers_blob := buffer.take (sep + 4)
      let headers := parseHeaderLines (splitCRLF headers_blob)
      let n : Int :=
        (pyIntParse ((dictGet headers (strB "content-length")).getD (strB "0"))).getD 0
      if n ≤ 0 then none
      else
        let start := sep + 4
        if buffer.length < start + n.toNat then none
        else some ((buffer.drop start).take n.toNat, start + n.toNat)

/-- Model of `sniff_and_summarize` (`upnote_mcp_debugger.py`).  The returned
`Framing` records which summary fired (the "LSP message detected" versus
"NDJSON line detected" log line); the code itself returns only the consumed
count. -/
def sniff_and_summarize (buffer : Bytes) : Option (Framing × Bytes × Nat) :=
  let ndjsonTry : Option (Framing × Bytes × Nat) :=
    if buffer.take 1 = [123] ∨ buffer.take 1 = [91] then
      match try_parse_ndjson buffer with
      | some (line, consumed) => some (.ndjson, line, consumed)
      | none => none
    else none
  if (strB "Content-Length:").isPrefixOf buffer
      || containsSub [13, 10, 13, 10] (buffer.take 128) then
    match try_parse_lsp buffer with
    | some (body, consumed) => some (.lsp, body, consumed)
    | none => ndjsonTry
  else ndjsonTry

/-- Bytes written by `_write_ndjson` (`upnote_mcp_server.py`): compact JSON
text plus a newline, UTF-8 encoded by the text-mode stdout. -/
def write_ndjson_bytes (payload : Json) : Bytes := serJ payload ++ [10]

/-- Bytes written by `_write_lsp` (`upnote_mcp_server.py`): a
`Content-Length` header over the UTF-8 body length, then the body. -/
def write_lsp_bytes (payload : Json) : Bytes :=
  strB "Content-Length: " ++ natDigits (serJ payload).length ++
    [13, 10, 13, 10] ++ serJ payload

/-- Encoding a value under a framing (the `write_message` dispatch). -/
def encode_message (f : Framing) (v : Json) : Bytes :=
  match f with
  | .ndjson => write_ndjson_bytes v
  | .lsp => write_lsp_bytes v

/-- Decoding one framed message to its JSON value: envelope extraction by the
framing's `try_parse_*` rule, then `json.loads` on the extracted bytes. -/
def decode_message (f : Framing) (b : Bytes) : Option Json :=
  match f with
  | .ndjson =>
      match try_parse_ndjson b with
      | some (line, _) => pyLoads line
      | none => none
  | .lsp =>
      match try_parse_lsp b with
      | some (body, _) => pyLoads body
      | none => none

/-! ### The proxy pump (`pump` in `upnote_mcp_debugger.py`)

One byte per iteration: write to the destination, tee, append to the rolling
summarisation buffer, and drop summarised prefixes from that buffer. -/

/-- State of one `pump` direction: bytes written to the destination, bytes
teed to the tap file, and the rolling summarisation buffer. -/
structure PumpState where
  dst : Bytes
  tap : Bytes
  buf : Bytes

/-- One iteration of the `pump` while-loop for a single byte read. -/
def pumpByte (st : PumpState) (b : Nat) : PumpState :=
  let dst := st.dst ++ [b]
  let tap := st.tap ++ [b]
  let buf := st.buf ++ [b]
  match sniff_and_summarize buf with
  | some (_, _, consumed) =>
      if consumed ≠ 0 then
        let buf2 := buf.drop consumed
        match sniff_and_summarize buf2 with
        | some (_, _, c2) =>
            if c2 ≠ 0 then { dst := dst, tap := tap, buf := buf2.drop c2 }
            else { dst := dst, tap := tap, buf := buf2 }
        | none => { dst := dst, tap := tap, buf := buf2 }
      else { dst := dst, tap := tap, buf := buf }
  | none => { dst := dst, tap := tap, buf := buf }

/-- Model of `pump` on a finite source delivered one byte at a time (the
`src.read(1)` granularity of the code). -/
def pump (input : Bytes) : PumpState := input.foldl pumpByte ⟨[], [], []⟩

/-! ### Server model (`upnote_mcp_server.py`)

The stdin byte stream and the cached `TRANSPORT_MODE` global form the server
state; `read_message` consumes from the stream and may set the mode, and the
`main` loop dispatches decoded messages, recording each written reply
together with the framing `write_message` used for it. -/

/-- Text-level escape of one string character (`escapeCharBytes` before UTF-8
encoding: characters at or above space other than quote and backslash stay
themselves). -/
def escapeCharText (c : Nat) : List Nat :=
  if c = 34 then [92, 34]
  else if c = 92 then [92, 92]
  else if c = 8 then [92, 98]
  else if c = 9 then [92, 116]
  else if c = 10 then [92, 110]
  else if c = 12 then [92, 102]
  else if c = 13 then [92, 114]
  else if c < 32 then [92, 117, 48, 48, hexDigit (c / 16), hexDigit (c % 16)]
  else [c]

/-- Model of `sys.stdin.buffer.readline()`: the bytes up to and including the
first newline (or everything at end of stream), and the remaining stream. -/
def readline : Bytes → Bytes × Bytes
  | [] => ([], [])
  | c :: rest =>
      if c = 10 then ([10], rest)
      else
        let (l, r) := readline rest
        (c :: l, r)

/-- Python `dict.get` for a decoded JSON object: the last occurrence of the
key wins, because `json.loads` builds the dict by repeated assignment. -/
def pyGet (ms : List (List Nat × Json)) (k : List Nat) : Option Json :=
  match ms with
  | [] => none
  | (k0, v0) :: rest =>
      match pyGet rest k with
      | some v => some v
      | none => if k0 = k then some v0 else none

/-- Python truthiness of a decoded JSON value. -/
def pyTruthy : Json → Bool
  | .null => false
  | .bool b => b
  | .num n => n != 0
  | .str s => !s.isEmpty
  | .arr es => !es.isEmpty
  | .obj ms => !ms.isEmpty

/-- Python type name of a decoded JSON value, as it appears in
`AttributeError` messages. -/
def pyTypeName : Json → Bytes
  | .null => strB "NoneType"
  | .bool _ => strB "bool"
  | .num _ => strB "int"
  | .str _ => strB "str"
  | .arr _ => strB "list"
  | .obj _ => strB "dict"

/-- The `AttributeError` text raised by `v.get(...)` on a non-dict value. -/
def attrGetError (v : Json) : Bytes :=
  strB "\x27" ++ pyTypeName v ++ strB "\x27 object has no attribute \x27get\x27"

mutual

/-- Text-level compact `json.dumps` (code points before UTF-8 encoding), used
where the code embeds a dumped string inside another payload. -/
def serText : Json → List Nat
  | .null => [110, 117, 108, 108]
  | .bool true => [116, 114, 117, 101]
  | .bool false => [102, 97, 108, 115, 101]
  | .num n => intSer n
  | .str s => 34 :: (s.flatMap escapeCharText ++ [34])
  | .arr es => 91 :: (serTextElems es ++ [93])
  | .obj ms => 123 :: (serTextMembers ms ++ [125])

/-- Text-level serialised array elements. -/
def serTextElems : List Json → List Nat
  | [] => []
  | e :: es => serText e ++ serTextElemSep es

/-- Continuation of `serTextElems` after the first element. -/
def serTextElemSep : List Json → List Nat
  | [] => []
  | e :: es => 44 :: (serText e ++ serTextElemSep es)

/-- Text-level serialised object members. -/
def serTextMembers : List (List Nat × Json) → List Nat
  | [] => []
  | (k, v) :: ms =>
      (34 :: (k.flatMap escapeCharText ++ [34])) ++
        (58 :: (serText v ++ serTextMemberSep ms))

/-- Continuation of `serTextMembers` after the first member. -/
def serTextMemberSep : List (List Nat × Json) → List Nat
  | [] => []
  | (k, v) :: ms =>
      44 :: ((34 :: (k.flatMap escapeCharText ++ [34])) ++
        (58 :: (serText v ++ serTextMemberSep ms)))

end

/-- Text of `f"... \x7bv\x7d ..."` interpolation (`str(v)`) for a decoded
value.  Scalars are exact; for lists and dicts CPython would print `repr`,
which this model approximates by the compact JSON text (the claims never
inspect those messages). -/
def pyStrApprox : Json → List Nat
  | .null => strB "None"
  | .bool true => strB "True"
  | .bool false => strB "False"
  | .num n => intSer n
  | .str s => s
  | .arr es => serText (.arr es)
  | .obj ms => serText (.obj ms)

/-- Model of `_read_ndjson_from`: `json.loads(line.decode("utf-8").strip())`,
with the decode error and parse error both yielding `None`.  (`str.strip`
also strips some non-ASCII whitespace; this model covers the ASCII set.) -/
def read_ndjson_from (first_line : Bytes) : Option Json :=
  pyLoads (stripB first_line)

/-- Model of `add_header` inside `_read_lsp_from`: ASCII-decode the line,
split at the first colon, strip and lowercase the key; failures are caught
and the line is skipped. -/
def add_header (headers : List (Bytes × Bytes)) (line : Bytes) : List (Bytes × Bytes) :=
  if line.all (· < 128) then
    match findSub [58] line with
    | some i =>
        dictSet headers (bytesLower (stripB (line.take i))) (stripB (line.drop (i + 1)))
    | none => headers
  else headers

/-- Fuel-indexed header-reading loop of `_read_lsp_from`: read lines until a
blank line; end of stream yields `none` (the code returns `None`). -/
def read_lsp_headersF :
    Nat → List (Bytes × Bytes) → Bytes → Option (List (Bytes × Bytes)) × Bytes
  | 0, _, stdin => (none, stdin)
  | fuel + 1, headers, stdin =>
      let (line, rest) := readline stdin
      if line = [] then (none, rest)
      else if line = [13, 10] ∨ line = [10] then (some headers, rest)
      else read_lsp_headersF fuel (add_header headers line) rest

/-- Model of `_read_lsp_from`: parse headers starting from the already-read
first line, read `Content-Length` body bytes, JSON-decode them.  Returns the
decoded message (or `none`) and the remaining stdin stream. -/
def read_lsp_from (first_line : Bytes) (stdin : Bytes) : Option Json × Bytes :=
  let headers0 : List (Bytes × Bytes) :=
    if first_line = [13, 10] ∨ first_line = [10] then []
    else add_header [] first_line
  match read_lsp_headersF (stdin.length + 1) headers0 stdin with
  | (none, rest) => (none, rest)
  | (some headers, rest) =>
      let n : Int :=
        (pyIntParse ((dictGet headers (strB "content-length")).getD (strB "0"))).getD 0
      if n ≤ 0 then (none, rest)
      else
        let body := rest.take n.toNat
        let rest2 := rest.drop n.toNat
        if body = [] ∨ body.length ≠ n.toNat then (none, rest2)
        else (pyLoads body, rest2)

/-- The server's transport state: the unread stdin bytes and the cached
`TRANSPORT_MODE` global (`none` until first set). -/
structure ServerSt where
  stdin : Bytes
  mode : Option Framing
deriving DecidableEq

/-- Model of `read_message`: read one line; branch on its stripped first
byte; set `TRANSPORT_MODE` with `TRANSPORT_MODE or <detected>`; decode under
the branch's rule. -/
def read_message (st : ServerSt) : Option Json × ServerSt :=
  let (first_line, rest) := readline st.stdin
  if first_line = [] then (none, { st with stdin := rest })
  else
    let stripped := lstripB first_line
    if [123].isPrefixOf stripped || [91].isPrefixOf stripped then
      (read_ndjson_from first_line, { stdin := rest, mode := some (st.mode.getD .ndjson) })
    else
      let (msg, rest2) := read_lsp_from first_line rest
      (msg, { stdin := rest2, mode := some (st.mode.getD .lsp) })

/-- Framing chosen by `write_message` for a given cached mode: `lsp` only
when the cache says so, `ndjson` otherwise (including the unset case). -/
def framingUsed (mode : Option Framing) : Framing :=
  if mode = some .lsp then .lsp else .ndjson

/-- Payload assembled by `write_result`. -/
def write_result_payload (id_value result : Json) : Json :=
  .obj [(strB "jsonrpc", jstr "2.0"), (strB "id", id_value), (strB "result", result)]

/-- Payload assembled by `write_error`. -/
def write_error_payload (id_value : Json) (code : Int) (message : List Nat) : Json :=
  .obj [(strB "jsonrpc", jstr "2.0"), (strB "id", id_value),
    (strB "error", .obj [(strB "code", .num code), (strB "message", .str message)])]

/-- The fixed `capabilities` structure of the initialize reply. -/
def fixedCapabilities : Json :=
  .obj [(strB "experimental", .obj []),
    (strB "prompts", .obj [(strB "listChanged", .bool false)]),
    (strB "resources",
      .obj [(strB "subscribe", .bool false), (strB "listChanged", .bool false)]),
    (strB "tools", .obj [(strB "listChanged", .bool false)])]

/-- The fixed `serverInfo` structure of the initialize reply (from
`SERVER_INFO`). -/
def fixedServerInfo : Json :=
  .obj [(strB "name", jstr "upnote-mcp"), (strB "version", jstr "1.0.0")]

/-- Model of the initialize handler: echo the client's `protocolVersion` when it
is a string starting with `202`, else `1.0.0`; non-dict `params` raises
`AttributeError` at `params.get`. -/
def resp_init (params : Json) : Except Bytes Json :=
  match params with
  | .obj ms =>
      let client_protocol := (pyGet ms (strB "protocolVersion")).getD (jstr "1.0.0")
      let protocol_version : List Nat :=
        match client_protocol with
        | .str s => if (strB "202").isPrefixOf s then s else strB "1.0.0"
        | _ => strB "1.0.0"
      .ok (.obj [(strB "protocolVersion", .str protocol_version),
        (strB "capabilities", fixedCapabilities),
        (strB "serverInfo", fixedServerInfo)])
  | v => .error (attrGetError v)

/-- Schema fragment `"type": "string"` and friends. -/
def tyStr : Json := .obj [(strB "type", jstr "string")]

/-- Schema fragment for a boolean property. -/
def tyBool : Json := .obj [(strB "type", jstr "boolean")]

/-- Schema fragment for an integer property. -/
def tyInt : Json := .obj [(strB "type", jstr "integer")]

/-- Schema fragment for an array-of-strings property. -/
def tyArrStr : Json :=
  .obj [(strB "type", jstr "array"), (strB "items", tyStr)]

/-- Schema fragment for a string enum property. -/
def tyEnum (vals : List String) : Json :=
  .obj [(strB "type", jstr "string"), (strB "enum", .arr (vals.map jstr))]

/-- An input schema with a `required` list. -/
def mkSchemaR (props : List (String × Json)) (required : List String) : Json :=
  .obj [(strB "type", jstr "object"),
    (strB "properties", .obj (props.map fun p => (strB p.1, p.2))),
    (strB "required", .arr (required.map jstr))]

/-- An input schema without a `required` list. -/
def mkSchemaNR (props : List (String × Json)) : Json :=
  .obj [(strB "type", jstr "object"),
    (strB "properties", .obj (props.map fun p => (strB p.1, p.2)))]

/-- One entry of the tool catalog. -/
def mkTool (name dsc : String) (schema : Json) : Json :=
  .obj [(strB "name", jstr name), (strB "description", jstr dsc),
    (strB "inputSchema", schema)]

/-- The fixed result of `list_tools`. -/
def list_tools_result : Json :=
  .obj [(strB "tools", .arr
    [mkTool "create_note" "Create a new note in UpNote"
      (mkSchemaR [("title", tyStr), ("text", tyStr), ("notebook", tyStr),
        ("tags", tyArrStr), ("pinned", tyBool), ("favorite", tyBool)]
        ["title", "text"]),
    mkTool "create_markdown_note" "Create a markdown formatted note in UpNote"
      (mkSchemaR [("title", tyStr), ("content", tyStr), ("notebook", tyStr),
        ("tags", tyArrStr), ("add_timestamp", tyBool)]
        ["title", "content"]),
    mkTool "create_task_note" "Create a task list note in UpNote"
      (mkSchemaR [("title", tyStr), ("tasks", tyArrStr), ("notebook", tyStr),
        ("due_date", tyStr), ("priority", tyEnum ["low", "medium", "high"])]
        ["title", "tasks"]),
    mkTool "create_meeting_note" "Create a meeting note in UpNote"
      (mkSchemaR [("title", tyStr), ("date", tyStr), ("attendees", tyArrStr),
        ("agenda", tyStr), ("notebook", tyStr), ("location", tyStr)]
        ["title", "date"]),
    mkTool "create_project_note" "Create a project note in UpNote"
      (mkSchemaR [("project_name", tyStr), ("description", tyStr),
        ("milestones", tyArrStr), ("team_members", tyArrStr),
        ("due_date", tyStr), ("priority", tyEnum ["low", "medium", "high"])]
        ["project_name", "description"]),
    mkTool "search_notes" "Search for notes in UpNote"
      (mkSchemaR [("query", tyStr), ("notebook", tyStr), ("tags", tyArrStr),
        ("limit", tyInt)]
        ["query"]),
    mkTool "open_note" "Open a specific note in UpNote"
      (mkSchemaNR [("note_id", tyStr), ("title", tyStr), ("edit", tyBool)]),
    mkTool "create_notebook" "Create a new notebook in UpNote"
      (mkSchemaR [("title", tyStr), ("color", tyStr), ("parent", tyStr)]
        ["title"]),
    mkTool "open_notebook" "Open a notebook in UpNote"
      (mkSchemaNR [("name", tyStr), ("notebook_id", tyStr)]),
    mkTool "open_upnote" "Open the UpNote application" (mkSchemaNR []),
    mkTool "import_note" "Import a note into UpNote"
      (mkSchemaR [("path", tyStr), ("notebook", tyStr), ("tags", tyArrStr)]
        ["path"]),
    mkTool "export_note" "Export a note from UpNote"
      (mkSchemaR [("note_id", tyStr), ("format", tyEnum ["md", "html", "pdf"]),
        ("dest_path", tyStr)]
        ["note_id", "format", "dest_path"])])]

/-- The tool names `call_tool` dispatches on (note: `create_daily_note` is
dispatchable here although commented out of the `list_tools` catalog). -/
def toolNames : List (List Nat) :=
  [strB "create_note", strB "create_markdown_note", strB "create_task_note",
   strB "create_meeting_note", strB "create_project_note",
   strB "create_daily_note", strB "search_notes", strB "open_note",
   strB "create_notebook", strB "open_notebook", strB "open_upnote",
   strB "import_note", strB "export_note"]

/-- Environment of `call_tool`: the import flag `UPNOTE_OK`, the outcome of
`UpNoteClient()` construction, and the effect of calling a client method with
the given arguments dict (its result modelled as a JSON-serialisable value,
its exception as the exception text; a `TypeError` from `**args` on bad
argument shapes is one such exception). -/
structure ToolEnv where
  upnote_ok : Bool
  client_init : Except (List Nat) Unit
  invoke : List Nat → Json → Except (List Nat) Json

/-- The `{"success": true, "result": res}` dict dumped into the text field. -/
def successDict (res : Json) : Json :=
  .obj [(strB "success", .bool true), (strB "result", res)]

/-- The `{"success": false, "error": msg}` dict dumped into the text field. -/
def failureDict (err : List Nat) : Json :=
  .obj [(strB "success", .bool false), (strB "error", .str err)]

/-- The structured payload `call_tool` returns: a one-element `content` list
holding a text item, plus the `isError` flag. -/
def toolPayload (text : List Nat) (isErr : Bool) : Json :=
  .obj [(strB "content",
      .arr [.obj [(strB "type", jstr "text"), (strB "text", .str text)]]),
    (strB "isError", .bool isErr)]

/-- The `args = params.get("arguments", \x7b\x7d) or \x7b\x7d` normalisation
inside `call_tool`. -/
def argsOf (ms : List (List Nat × Json)) : Json :=
  match pyGet ms (strB "arguments") with
  | some a => if pyTruthy a then a else .obj []
  | none => .obj []

/-- Model of `call_tool`: returns the structured payload, or the
`AttributeError` text when `params` is not a dict (`params.get` is evaluated
before the function's `try` blocks). -/
def call_tool (env : ToolEnv) (params : Json) : Except (List Nat) Json :=
  match params with
  | .obj ms =>
      let name := pyGet ms (strB "name")
      let args : Json := argsOf ms
      if !env.upnote_ok then
        .ok (toolPayload (serText (failureDict (strB "UpNote client not available"))) true)
      else
        match env.client_init with
        | .error e =>
            .ok (toolPayload (serText (failureDict (strB "Failed to init client: " ++ e))) true)
        | .ok () =>
            match name with
            | some (.str nm) =>
                if nm ∈ toolNames then
                  match env.invoke nm args with
                  | .ok res => .ok (toolPayload (serText (successDict res)) false)
                  | .error e => .ok (toolPayload (serText (failureDict e)) true)
                else
                  .ok (toolPayload
                    (serText (failureDict (strB "Unknown tool: " ++ nm))) true)
            | _ =>
                .ok (toolPayload
                  (serText (failureDict (strB "Unknown tool: " ++
                    (match name with | some v => pyStrApprox v | none => strB "None")))) true)
  | v => .error (attrGetError v)

/-- What the loop does after one message: continue, break (after
`shutdown`'s reply), or crash with an uncaught exception (`req.get` on a
non-dict message, raised outside the `try`). -/
inductive LoopCtl where
  | cont
  | stop
  | crash
deriving DecidableEq

/-- The `params = req.get("params", \x7b\x7d) or \x7b\x7d` normalisation. -/
def paramsOf (ms : List (List Nat × Json)) : Json :=
  match pyGet ms (strB "params") with
  | some p => if pyTruthy p then p else .obj []
  | none => .obj []

/-- Dispatch of one request (identifier present): the `try`-guarded method
chain of `main`, every branch writing exactly one reply via
`write_result`/`write_error`, and handler exceptions surfacing as `-32603`
error replies. -/
def handle_request (env : ToolEnv) (mode : Option Framing) (rid : Json)
    (ms : List (List Nat × Json)) : List (Framing × Json) × LoopCtl :=
  let f := framingUsed mode
  let method : Option Json := pyGet ms (strB "method")
  let notFound : List Nat → List (Framing × Json) × LoopCtl := fun txt =>
    ([(f, write_error_payload rid (-32601) (strB "Method not found: " ++ txt))], .cont)
  match method with
  | some (.str s) =>
      if s = strB "initialize" then
        match resp_init (paramsOf ms) with
        | .ok r => ([(f, write_result_payload rid r)], .cont)
        | .error e =>
            ([(f, write_error_payload rid (-32603) (strB "Internal error: " ++ e))], .cont)
      else if s = strB "tools/list" then
        ([(f, write_result_payload rid list_tools_result)], .cont)
      else if s = strB "tools/call" then
        match call_tool env (paramsOf ms) with
        | .ok payload => ([(f, write_result_payload rid payload)], .cont)
        | .error e =>
            ([(f, write_error_payload rid (-32603) (strB "Internal error: " ++ e))], .cont)
      else if s = strB "ping" then
        ([(f, write_result_payload rid (.obj []))], .cont)
      else if s = strB "shutdown" then
        ([(f, write_result_payload rid (.obj []))], .stop)
      else notFound s
  | some v => notFound (pyStrApprox v)
  | none => notFound (strB "None")

/-- Dispatch of one decoded message in `main`: notifications (no identifier,
or identifier `null`) produce no reply; non-dict messages crash on
`req.get` before any reply is written. -/
def dispatch (env : ToolEnv) (mode : Option Framing) (req : Json) :
    List (Framing × Json) × LoopCtl :=
  match req with
  | .obj ms =>
      let rid : Option Json :=
        match pyGet ms (strB "id") with
        | some .null => none
        | x => x
      match rid with
      | none => ([], .cont)
      | some i => handle_request env mode i ms
  | _ => ([], .crash)

/-- Fuel-indexed `main` loop: read, dispatch, collect replies (each tagged
with the framing it was encoded under), until EOF / decode failure (`read
returns none`), `shutdown`, or a crash. -/
def server_loopF : Nat → ToolEnv → ServerSt → List (Framing × Json)
  | 0, _, _ => []
  | fuel + 1, env, st =>
      match read_message st with
      | (none, _) => []
      | (some req, st2) =>
          let (outs, ctl) := dispatch env st2.mode req
          match ctl with
          | .cont => outs ++ server_loopF fuel env st2
          | .stop => outs
          | .crash => outs

/-- Run the server `main` loop on a complete stdin byte stream.  Every loop
iteration consumes at least one byte of the stream, so fuel `length + 1`
never runs out. -/
def server_run (env : ToolEnv) (input : Bytes) : List (Framing × Json) :=
  server_loopF (input.length + 1) env ⟨input, none⟩

/-- A sample environment with a working client whose calls all succeed. -/
def envOk : ToolEnv :=
  ⟨true, .ok (), fun _ _ => .ok (.obj [(strB "ok", .bool true)])⟩

/-! ### Observables used by the claims -/

/-- The request identifier of a decoded message as the dispatch loop sees it:
`req.get("id")` with JSON `null` identified with Python `None`; non-dict
messages carry no identifier. -/
def reqId : Json → Option Json
  | .obj ms =>
      match pyGet ms (strB "id") with
      | some .null => none
      | x => x
  | _ => none

/-- The `id` field of a written reply payload. -/
def payloadId : Json → Option Json
  | .obj ms => pyGet ms (strB "id")
  | _ => none

/-- The `result` field of a written reply payload. -/
def payloadResult : Json → Option Json
  | .obj ms => pyGet ms (strB "result")
  | _ => none

/-- The `error` field of a written reply payload. -/
def payloadError : Json → Option Json
  | .obj ms => pyGet ms (strB "error")
  | _ => none

/-- A `ping` request with identifier 1, used to instantiate theorems. -/
def pingReq : Json :=
  .obj [(strB "jsonrpc", jstr "2.0"), (strB "id", .num 1), (strB "method", jstr "ping")]

/-- The `frobnicate` request with id 9 from the claim's scenario. -/
def frobnicateReq : List (List Nat × Json) :=
  [(strB "jsonrpc", jstr "2.0"), (strB "id", .num 9),
   (strB "method", jstr "frobnicate")]

/-- The protocol version the claim C10 predicts for the initialize reply:
the client's `params.protocolVersion` when that value is a string starting
with `202`, and `1.0.0` in every other case (missing, non-string, or not
starting with `202`). -/
def claimProtocolVersion (ms : List (List Nat × Json)) : List Nat :=
  match pyGet ms (strB "protocolVersion") with
  | some (.str s) => if (strB "202").isPrefixOf s then s else strB "1.0.0"
  | _ => strB "1.0.0"

/-- A tools/call request with id 3 whose `params` is the non-empty array
`[1]` (a truthy non-dict, so `params.get` raises). -/
def badToolsCall : Json :=
  .obj [(strB "jsonrpc", jstr "2.0"), (strB "id", .num 3),
    (strB "method", jstr "tools/call"), (strB "params", .arr [.num 1])]

/-- A well-formed tools/call request with id 4 used to instantiate C9. -/
def toolsCallReq : List (List Nat × Json) :=
  [(strB "jsonrpc", jstr "2.0"), (strB "id", .num 4),
   (strB "method", jstr "tools/call"),
   (strB "params", .obj [(strB "name", jstr "create_note")])]

/-- Classification outcome of the debugger's sniffer: which framing's
summary fires on a given buffer (`none` when the code keeps accumulating). -/
def sniffClassify (b : Bytes) : Option Framing :=
  (sniff_and_summarize b).map (·.1)

/-- The classifier claim C2 describes: lsp when the chunk starts with the
`Content-Length:` token or contains the header terminator within its first
128 bytes; otherwise ndjson when the first non-whitespace byte is a brace or
bracket; otherwise undetermined. -/
def claimClassify (b : Bytes) : Option Framing :=
  if (strB "Content-Length:").isPrefixOf b
      || containsSub [13, 10, 13, 10] (b.take 128) then some .lsp
  else
    match lstripB b with
    | 123 :: _ => some .ndjson
    | 91 :: _ => some .ndjson
    | _ => none

/-- The classifier the debugger actually implements (the amended C2): the
header heuristic commits to lsp only when a complete LSP envelope is
extractable, falling through to the ndjson test otherwise; the ndjson test
looks at the chunk's very first byte (not its first non-whitespace byte) and
commits only when a complete line is present. -/
def amendClassify (b : Bytes) : Option Framing :=
  if ((strB "Content-Length:").isPrefixOf b
      || containsSub [13, 10, 13, 10] (b.take 128)) && (try_parse_lsp b).isSome then
    some .lsp
  else if (b.take 1 = [123] ∨ b.take 1 = [91]) ∧ (try_parse_ndjson b).isSome then
    some .ndjson
  else none

/-- The stream for the C5 counterexample: an LSP-framed message arriving on
a stream whose cached transport mode is already `ndjson`. -/
def lspPingBytes : Bytes := strB "Content-Length: 8\r\n\r\n\x7b\"id\":2\x7d"

/-- A line whose JSON body fails to parse. -/
def badJsonLine : Bytes := strB "\x7bbad\x7d\n"

/-- The valid ping line used to show the loop would have continued. -/
def pingLine : Bytes := strB "\x7b\"jsonrpc\":\"2.0\",\"id\":1,\"method\":\"ping\"\x7d\n"

/-! ### Round-trip machinery: decimal digits -/

/-- A byte sequence that cannot extend a JSON number: empty, or headed by a
byte that is no digit and none of the period/exponent markers.  The
serialiser only ever leaves `,`, a closing bracket or brace, or nothing
after a number. -/
def goodTail : Bytes → Prop
  | [] => True
  | c :: _ => c = 44 ∨ c = 93 ∨ c = 125

theorem findSub_le {pat b : Bytes} {i : Nat} (h : findSub pat b = some i) :
    i + pat.length ≤ b.length := by
  induction b generalizing i with
  | nil =>
      simp only [findSub] at h
      split at h
      · rename_i hp
        subst hp
        simp only [Option.some.injEq] at h
        simp
        omega
      · exact absurd h (by simp)
  | cons c rest ih =>
      simp only [findSub] at h
      split at h
      · rename_i hp
        have hle := List.IsPrefix.length_le (List.isPrefixOf_iff_prefix.mp hp)
        simp only [Option.some.injEq] at h
        simp only [List.length_cons] at hle ⊢
        omega
      · cases hf : findSub pat rest with
        | none => rw [hf] at h; simp at h
        | some j =>
            rw [hf] at h
            simp only [Option.map_some', Option.some.injEq] at h
            have := ih hf
            simp only [List.length_cons]
            omega

theorem natDigitsF_fuel : ∀ m f₁ f₂, m < f₁ → m < f₂ →
    natDigitsF f₁ m = natDigitsF f₂ m := by
  intro m
  induction m using Nat.strongRecOn with
  | ind m ih =>
      intro f₁ f₂ h₁ h₂
      match f₁, f₂ with
      | g₁ + 1, g₂ + 1 =>
          simp only [natDigitsF]
          by_cases hm : m < 10
          · simp [hm]
          · simp only [if_neg hm]
            have hd : m / 10 < m := Nat.div_lt_self (by omega) (by omega)
            rw [ih (m / 10) hd g₁ (m / 10 + 1) (by omega) (by omega),
              ih (m / 10) hd g₂ (m / 10 + 1) (by omega) (by omega)]

/-- The defining recurrence of `natDigits`. -/
theorem natDigits_eq (m : Nat) :
    natDigits m = if m < 10 then [48 + m] else natDigits (m / 10) ++ [48 + m % 10] := by
  show natDigitsF (m + 1) m = _
  simp only [natDigitsF]
  by_cases hm : m < 10
  · simp [hm]
  · simp only [if_neg hm]
    rw [natDigitsF_fuel (m / 10) m (m / 10 + 1) (Nat.div_lt_self (by omega) (by omega))
      (by have := Nat.div_lt_self (show 0 < m by omega) (show 1 < 10 by omega); omega)]
    rfl

example : strB "id" = [105, 100] := rfl

example : natDigits 240 = [50, 52, 48] := rfl

example : serJ (.obj [(strB "id", .num 1)]) = strB "\x7b\"id\":1\x7d" := rfl

example : pyLoads (strB "\x7b\"id\":1,\"a\":[true,null]\x7d") =
    some (.obj [(strB "id", .num 1), (strB "a", .arr [.bool true, .null])]) := rfl

example : pyLoads (strB " -240 ") = some (.num (-240)) := rfl

example : pyLoads (strB "\x7boops\x7d") = none := rfl

example : pyLoads (strB "1.5") = none := rfl

example : pyLoads (strB "\"a\\u00e9\\n\"") = some (.str [97, 233, 10]) := rfl

example : pyLoads (serJ (.str [97, 233, 10, 119070])) =
    some (.str [97, 233, 10, 119070]) := rfl

example :
    try_parse_lsp (strB "Content-Length: 2\r\n\r\n\x7b\x7d") =
      some (strB "\x7b\x7d", 23) := rfl

example : decode_message .lsp (encode_message .lsp (.obj [])) = some (.obj []) := rfl

example : decode_message .ndjson (encode_message .ndjson (jstr "hi")) =
    some (jstr "hi") := rfl

example : (pump (strB "\x7b\"id\":7\x7d\nXY")).dst = strB "\x7b\"id\":7\x7d\nXY" := rfl

example : (pump (strB "\x7b\"id\":7\x7d\nXY")).buf = strB "XY" := rfl

example :
    server_run envOk (strB "\x7b\"jsonrpc\":\"2.0\",\"id\":1,\"method\":\"ping\"\x7d\n") =
      [(.ndjson, write_result_payload (.num 1) (.obj []))] := rfl

example :
    server_run envOk (strB "\x7b\"jsonrpc\":\"2.0\",\"method\":\"noop\"\x7d\n") = [] := rfl

example :
    server_run envOk (strB "Content-Length: 8\r\n\r\n\x7b\"id\":2\x7d") =
      [(.lsp, write_error_payload (.num 2) (-32601) (strB "Method not found: None"))] := rfl

example : payloadId (write_result_payload (.num 9) (.obj [])) = some (.num 9) := rfl

example : payloadError (write_result_payload (.num 9) (.obj [])) = none := rfl

/-! ### Pump lemmas -/

theorem pumpByte_dst (st : PumpState) (b : Nat) : (pumpByte st b).dst = st.dst ++ [b] := by
  simp only [pumpByte]
  split
  · split
    · split
      · split <;> rfl
      · rfl
    · rfl
  · rfl

theorem pumpByte_tap (st : PumpState) (b : Nat) : (pumpByte st b).tap = st.tap ++ [b] := by
  simp only [pumpByte]
  split
  · split
    · split
      · split <;> rfl
      · rfl
    · rfl
  · rfl

theorem pump_foldl_dst_tap (input : Bytes) : ∀ st : PumpState,
    (input.foldl pumpByte st).dst = st.dst ++ input ∧
      (input.foldl pumpByte st).tap = st.tap ++ input := by
  induction input with
  | nil => intro st; simp
  | cons b rest ih =>
      intro st
      simp only [List.foldl_cons]
      obtain ⟨h1, h2⟩ := ih (pumpByte st b)
      rw [h1, h2, pumpByte_dst, pumpByte_tap]
      simp

/-! ### Dispatch lemmas -/

theorem payloadId_result (i r : Json) : payloadId (write_result_payload i r) = some i := rfl

theorem payloadId_error (i : Json) (c : Int) (m : List Nat) :
    payloadId (write_error_payload i c m) = some i := rfl

/-- Every branch of `handle_request` writes exactly one reply, tagged with
the cached framing and echoing the request identifier. -/
theorem handle_request_one_reply (env : ToolEnv) (mode : Option Framing) (rid : Json)
    (ms : List (List Nat × Json)) :
    ∃ p, (handle_request env mode rid ms).1 = [(framingUsed mode, p)] ∧
      payloadId p = some rid := by
  simp only [handle_request]
  match pyGet ms (strB "method") with
  | some (.str s) =>
      by_cases h1 : s = strB "initialize"
      · simp only [if_pos h1]
        match resp_init (paramsOf ms) with
        | .ok r => exact ⟨_, rfl, rfl⟩
        | .error e => exact ⟨_, rfl, rfl⟩
      · by_cases h2 : s = strB "tools/list"
        · simp only [if_neg h1, if_pos h2]
          exact ⟨_, rfl, rfl⟩
        · by_cases h3 : s = strB "tools/call"
          · simp only [if_neg h1, if_neg h2, if_pos h3]
            match call_tool env (paramsOf ms) with
            | .ok r => exact ⟨_, rfl, rfl⟩
            | .error e => exact ⟨_, rfl, rfl⟩
          · by_cases h4 : s = strB "ping"
            · simp only [if_neg h1, if_neg h2, if_neg h3, if_pos h4]
              exact ⟨_, rfl, rfl⟩
            · by_cases h5 : s = strB "shutdown"
              · simp only [if_neg h1, if_neg h2, if_neg h3, if_neg h4, if_pos h5]
                exact ⟨_, rfl, rfl⟩
              · simp only [if_neg h1, if_neg h2, if_neg h3, if_neg h4, if_neg h5]
                exact ⟨_, rfl, rfl⟩
  | some .null => exact ⟨_, rfl, rfl⟩
  | some (.bool b) => exact ⟨_, rfl, rfl⟩
  | some (.num n) => exact ⟨_, rfl, rfl⟩
  | some (.arr es) => exact ⟨_, rfl, rfl⟩
  | some (.obj ms2) => exact ⟨_, rfl, rfl⟩
  | none => exact ⟨_, rfl, rfl⟩

theorem reqId_obj_some {ms : List (List Nat × Json)} {i : Json}
    (h : reqId (.obj ms) = some i) :
    pyGet ms (strB "id") = some i ∧ i ≠ .null := by
  simp only [reqId] at h
  match hid : pyGet ms (strB "id") with
  | none => rw [hid] at h; simp at h
  | some .null => rw [hid] at h; simp at h
  | some (.bool b) => rw [hid] at h; exact ⟨h, by rintro rfl; simp at h⟩
  | some (.num n) => rw [hid] at h; exact ⟨h, by rintro rfl; simp at h⟩
  | some (.str s) => rw [hid] at h; exact ⟨h, by rintro rfl; simp at h⟩
  | some (.arr es) => rw [hid] at h; exact ⟨h, by rintro rfl; simp at h⟩
  | some (.obj ms2) => rw [hid] at h; exact ⟨h, by rintro rfl; simp at h⟩

theorem dispatch_rid_some (env : ToolEnv) (mode : Option Framing)
    (ms : List (List Nat × Json)) (v : Json)
    (h : pyGet ms (strB "id") = some v) (hv : v ≠ .null) :
    dispatch env mode (.obj ms) = handle_request env mode v ms := by
  simp only [dispatch, h]
  cases v <;> simp_all

theorem dispatch_notification (env : ToolEnv) (mode : Option Framing)
    (ms : List (List Nat × Json))
    (h : pyGet ms (strB "id") = none ∨ pyGet ms (strB "id") = some .null) :
    dispatch env mode (.obj ms) = ([], .cont) := by
  simp only [dispatch]
  rcases h with h | h <;> simp [h]

/-- C1: for every decoded message carrying an identifier `i` (a request), the
dispatch loop writes exactly one reply and that reply's `id` field equals
`i`; for every decoded message without an identifier (a notification), it
writes zero replies. -/
theorem c1_request_one_reply (env : ToolEnv) (mode : Option Framing) (req : Json) :
    (∀ i, reqId req = some i →
      ∃ p, (dispatch env mode req).1 = [(framingUsed mode, p)] ∧ payloadId p = some i) ∧
    (reqId req = none → (dispatch env mode req).1 = []) := by
  constructor
  · intro i hi
    match req with
    | .obj ms =>
        obtain ⟨hid, hnn⟩ := reqId_obj_some hi
        rw [dispatch_rid_some env mode ms i hid hnn]
        exact handle_request_one_reply env mode i ms
    | .null => simp [reqId] at hi
    | .bool b => simp [reqId] at hi
    | .num n => simp [reqId] at hi
    | .str s => simp [reqId] at hi
    | .arr es => simp [reqId] at hi
  · intro hn
    match req with
    | .obj ms =>
        simp only [reqId] at hn
        match hid : pyGet ms (strB "id") with
        | none => rw [dispatch_notification env mode ms (Or.inl hid)]
        | some .null => rw [dispatch_notification env mode ms (Or.inr hid)]
        | some (.bool b) => rw [hid] at hn; simp at hn
        | some (.num n) => rw [hid] at hn; simp at hn
        | some (.str s) => rw [hid] at hn; simp at hn
        | some (.arr es) => rw [hid] at hn; simp at hn
        | some (.obj ms2) => rw [hid] at hn; simp at hn
    | .null => rfl
    | .bool b => rfl
    | .num n => rfl
    | .str s => rfl
    | .arr es => rfl

/-- Closed instance of C1 at the concrete `ping` request with id 1. -/
theorem c1_request_one_reply_witness :
    reqId pingReq = some (.num 1) ∧
    ∃ p, (dispatch envOk none pingReq).1 = [(framingUsed none, p)] ∧
      payloadId p = some (.num 1) :=
  ⟨rfl, (c1_request_one_reply envOk none pingReq).1 (.num 1) rfl⟩

/-- C7: every finite byte sequence delivered to a ProxyPump one byte at a
time is forwarded to the destination byte-for-byte in order, and the tee
file's contents equal the destination's received bytes exactly; the
equalities hold for every input, whatever the summarisation step does, so
summarisation never alters, reorders, or suppresses a forwarded byte. -/
theorem c7_pump_forwards (input : Bytes) :
    (pump input).dst = input ∧ (pump input).tap = (pump input).dst := by
  obtain ⟨h1, h2⟩ := pump_foldl_dst_tap input ⟨[], [], []⟩
  constructor
  · simpa using h1
  · show (pump input).tap = (pump input).dst
    rw [show pump input = input.foldl pumpByte ⟨[], [], []⟩ from rfl, h1, h2]

/-- C8: a request whose string method is outside the fixed method table gets
exactly one reply echoing its id, whose payload carries an error object with
the method-not-found code `-32601` and a non-empty message and no `result`
field; `-32601` is distinct from the internal-error code `-32603`. -/
theorem c8_unknown_method (env : ToolEnv) (mode : Option Framing)
    (ms : List (List Nat × Json)) (i : Json) (s : List Nat)
    (hid : reqId (.obj ms) = some i)
    (hm : pyGet ms (strB "method") = some (.str s))
    (h1 : s ≠ strB "initialize") (h2 : s ≠ strB "tools/list")
    (h3 : s ≠ strB "tools/call") (h4 : s ≠ strB "ping")
    (h5 : s ≠ strB "shutdown") :
    (dispatch env mode (.obj ms)).1 =
      [(framingUsed mode,
        write_error_payload i (-32601) (strB "Method not found: " ++ s))] ∧
    payloadId (write_error_payload i (-32601) (strB "Method not found: " ++ s)) =
      some i ∧
    payloadError (write_error_payload i (-32601) (strB "Method not found: " ++ s)) =
      some (.obj [(strB "code", .num (-32601)),
        (strB "message", .str (strB "Method not found: " ++ s))]) ∧
    payloadResult (write_error_payload i (-32601) (strB "Method not found: " ++ s)) =
      none ∧
    strB "Method not found: " ++ s ≠ [] ∧
    (-32601 : Int) ≠ -32603 := by
  obtain ⟨hid2, hnn⟩ := reqId_obj_some hid
  rw [dispatch_rid_some env mode ms i hid2 hnn]
  refine ⟨?_, rfl, rfl, rfl, by simp [strB], by decide⟩
  simp only [handle_request, hm]
  simp [if_neg h1, if_neg h2, if_neg h3, if_neg h4, if_neg h5]

/-- Closed instance of C8 at method `frobnicate`, id 9. -/
theorem c8_unknown_method_witness :
    (dispatch envOk none (.obj frobnicateReq)).1 =
      [(framingUsed none,
        write_error_payload (.num 9) (-32601)
          (strB "Method not found: " ++ strB "frobnicate"))] ∧
    payloadId (write_error_payload (.num 9) (-32601)
      (strB "Method not found: " ++ strB "frobnicate")) = some (.num 9) :=
  ⟨(c8_unknown_method envOk none frobnicateReq (.num 9) (strB "frobnicate")
      rfl rfl (by decide) (by decide) (by decide) (by decide) (by decide)).1,
   (c8_unknown_method envOk none frobnicateReq (.num 9) (strB "frobnicate")
      rfl rfl (by decide) (by decide) (by decide) (by decide) (by decide)).2.1⟩

/-- C10: for every initialize request (params a dict), the result's
`protocolVersion` follows `claimProtocolVersion`, and the rest of the result
(capabilities and serverInfo) is a fixed structure independent of the
request. -/
theorem c10_initialize_result (ms : List (List Nat × Json)) :
    resp_init (.obj ms) = .ok (.obj
      [(strB "protocolVersion", .str (claimProtocolVersion ms)),
       (strB "capabilities", fixedCapabilities),
       (strB "serverInfo", fixedServerInfo)]) := by
  simp only [resp_init, claimProtocolVersion]
  match hpv : pyGet ms (strB "protocolVersion") with
  | none => rfl
  | some .null => rfl
  | some (.bool b) => rfl
  | some (.num n) => rfl
  | some (.str s) => simp [jstr]
  | some (.arr es) => rfl
  | some (.obj ms2) => rfl

/-- C9 (amended): when a tools/call request's `params` value is a dict (main
normalises missing and falsy values to the empty dict), `call_tool` returns
a structured payload — one text content item plus a boolean `isError` — and
never raises, so the request receives a result reply; `isError` is false
exactly when the client imported, constructed, the tool name is known, and
the invocation succeeded. -/
theorem c9_tools_call_result (env : ToolEnv) (mode : Option Framing)
    (ms pms : List (List Nat × Json)) (i : Json)
    (hid : reqId (.obj ms) = some i)
    (hm : pyGet ms (strB "method") = some (.str (strB "tools/call")))
    (hp : paramsOf ms = .obj pms) :
    ∃ txt isErr,
      (dispatch env mode (.obj ms)).1 =
        [(framingUsed mode, write_result_payload i (toolPayload txt isErr))] ∧
      (isErr = false ↔ env.upnote_ok = true ∧ env.client_init = .ok () ∧
        ∃ nm, pyGet pms (strB "name") = some (.str nm) ∧ nm ∈ toolNames ∧
          ∃ res, env.invoke nm (argsOf pms) = .ok res) := by
  obtain ⟨hid2, hnn⟩ := reqId_obj_some hid
  rw [dispatch_rid_some env mode ms i hid2 hnn]
  simp only [handle_request, hm]
  simp only [if_neg (show ¬(strB "tools/call" = strB "initialize") by decide),
    if_neg (show ¬(strB "tools/call" = strB "tools/list") by decide),
    if_pos (show strB "tools/call" = strB "tools/call" from rfl), if_true, hp]
  simp only [call_tool]
  cases hok : env.upnote_ok with
  | false =>
      refine ⟨serText (failureDict (strB "UpNote client not available")), true,
        by simp, iff_of_false (by simp) ?_⟩
      rintro ⟨h, -⟩
      simp at h
  | true =>
      match hc : env.client_init with
      | .error e =>
          refine ⟨serText (failureDict (strB "Failed to init client: " ++ e)), true,
            by simp, iff_of_false (by simp) ?_⟩
          rintro ⟨-, h, -⟩
          simp at h
      | .ok () =>
          match hn : pyGet pms (strB "name") with
          | some (.str nm) =>
              by_cases hmem : nm ∈ toolNames
              · match hin : env.invoke nm (argsOf pms) with
                | .ok res =>
                    exact ⟨serText (successDict res), false, by simp [hmem, hin],
                      iff_of_true rfl ⟨rfl, rfl, nm, rfl, hmem, res, hin⟩⟩
                | .error e =>
                    refine ⟨serText (failureDict e), true, by simp [hmem, hin],
                      iff_of_false (by simp) ?_⟩
                    rintro ⟨-, -, nm2, hn2, -, res, hres⟩
                    simp only [Option.some.injEq, Json.str.injEq] at hn2
                    subst hn2
                    rw [hres] at hin
                    exact absurd hin (by simp)
              · refine ⟨serText (failureDict (strB "Unknown tool: " ++ nm)), true,
                  by simp [hmem], iff_of_false (by simp) ?_⟩
                rintro ⟨-, -, nm2, hn2, hmem2, -⟩
                simp only [Option.some.injEq, Json.str.injEq] at hn2
                subst hn2
                exact absurd hmem2 hmem
          | some .null =>
              refine ⟨serText (failureDict (strB "Unknown tool: " ++ pyStrApprox .null)),
                true, by simp, iff_of_false (by simp) ?_⟩
              rintro ⟨-, -, nm2, hn2, -⟩
              simp at hn2
          | some (.bool b) =>
              refine ⟨serText (failureDict
                  (strB "Unknown tool: " ++ pyStrApprox (.bool b))),
                true, by simp, iff_of_false (by simp) ?_⟩
              rintro ⟨-, -, nm2, hn2, -⟩
              simp at hn2
          | some (.num n) =>
              refine ⟨serText (failureDict
                  (strB "Unknown tool: " ++ pyStrApprox (.num n))),
                true, by simp, iff_of_false (by simp) ?_⟩
              rintro ⟨-, -, nm2, hn2, -⟩
              simp at hn2
          | some (.arr es) =>
              refine ⟨serText (failureDict
                  (strB "Unknown tool: " ++ pyStrApprox (.arr es))),
                true, by simp, iff_of_false (by simp) ?_⟩
              rintro ⟨-, -, nm2, hn2, -⟩
              simp at hn2
          | some (.obj ms2) =>
              refine ⟨serText (failureDict
                  (strB "Unknown tool: " ++ pyStrApprox (.obj ms2))),
                true, by simp, iff_of_false (by simp) ?_⟩
              rintro ⟨-, -, nm2, hn2, -⟩
              simp at hn2
          | none =>
              refine ⟨serText (failureDict (strB "Unknown tool: " ++ strB "None")),
                true, by simp, iff_of_false (by simp) ?_⟩
              rintro ⟨-, -, nm2, hn2, -⟩
              simp at hn2

/-- C9 counterexample: the tools/call request `badToolsCall` receives a
JSON-RPC error reply (internal error -32603) and no result reply, because
`params.get` raises `AttributeError` before `call_tool`'s try blocks. -/
theorem c9_counterexample :
    (dispatch envOk none badToolsCall).1 =
      [(.ndjson, write_error_payload (.num 3) (-32603)
        (strB "Internal error: \x27list\x27 object has no attribute \x27get\x27"))] ∧
    payloadResult (write_error_payload (.num 3) (-32603)
      (strB "Internal error: \x27list\x27 object has no attribute \x27get\x27")) =
      none ∧
    (payloadError (write_error_payload (.num 3) (-32603)
      (strB "Internal error: \x27list\x27 object has no attribute \x27get\x27"))).isSome =
      true :=
  ⟨rfl, rfl, rfl⟩

/-- Closed instance of the amended C9 at a concrete tools/call request. -/
theorem c9_tools_call_result_witness :
    ∃ txt isErr,
      (dispatch envOk none (.obj toolsCallReq)).1 =
        [(framingUsed none, write_result_payload (.num 4) (toolPayload txt isErr))] ∧
      (isErr = false ↔ envOk.upnote_ok = true ∧ envOk.client_init = .ok () ∧
        ∃ nm, pyGet [(strB "name", jstr "create_note")] (strB "name") =
            some (.str nm) ∧ nm ∈ toolNames ∧
          ∃ res, envOk.invoke nm (argsOf [(strB "name", jstr "create_note")]) =
            .ok res) :=
  c9_tools_call_result envOk none toolsCallReq [(strB "name", jstr "create_note")]
    (.num 4) rfl rfl rfl

/-- C2 counterexample: on the chunk `" \x7b\x7d\n"` (space, brace pair,
newline) the claim's classifier says ndjson — the first non-whitespace byte
is a brace — but the debugger's sniffer stays undetermined, because it tests
the chunk's very first byte. -/
theorem c2_counterexample :
    sniffClassify (strB " \x7b\x7d\n") = none ∧
    claimClassify (strB " \x7b\x7d\n") = some .ndjson ∧
    sniffClassify (strB " \x7b\x7d\n") ≠ claimClassify (strB " \x7b\x7d\n") :=
  ⟨rfl, rfl, by decide⟩

/-- C2 (amended): the debugger's framing classification equals
`amendClassify`: lsp when the header heuristic fires and a complete LSP
envelope is extractable; otherwise ndjson when the chunk's first byte is a
brace or bracket and a complete line is present; otherwise undetermined and
more bytes are accumulated. -/
theorem c2_sniff_classification (b : Bytes) : sniffClassify b = amendClassify b := by
  cases hcond : ((strB "Content-Length:").isPrefixOf b
      || containsSub [13, 10, 13, 10] (b.take 128)) with
  | true =>
      cases htl : try_parse_lsp b with
      | some r =>
          obtain ⟨body, consumed⟩ := r
          simp [sniffClassify, amendClassify, sniff_and_summarize, hcond, htl]
      | none =>
          by_cases hnd : b.take 1 = [123] ∨ b.take 1 = [91]
          · cases htn : try_parse_ndjson b with
            | some r =>
                obtain ⟨line, consumed⟩ := r
                simp [sniffClassify, amendClassify, sniff_and_summarize,
                  hcond, htl, hnd, htn]
            | none =>
                simp [sniffClassify, amendClassify, sniff_and_summarize,
                  hcond, htl, hnd, htn]
          · simp [sniffClassify, amendClassify, sniff_and_summarize, hcond, htl, hnd]
  | false =>
      by_cases hnd : b.take 1 = [123] ∨ b.take 1 = [91]
      · cases htn : try_parse_ndjson b with
        | some r =>
            obtain ⟨line, consumed⟩ := r
            simp [sniffClassify, amendClassify, sniff_and_summarize, hcond, hnd, htn]
        | none =>
            simp [sniffClassify, amendClassify, sniff_and_summarize, hcond, hnd, htn]
      · simp [sniffClassify, amendClassify, sniff_and_summarize, hcond, hnd]

/-- C5 counterexample: with the cached framing already `ndjson`, the next
read of an LSP-framed chunk is decoded by the LSP rule (successfully), not
by the cached ndjson rule (which fails on the same line) — so reads are not
decoded under the framing fixed by the first classification.  The cache
itself is untouched. -/
theorem c5_counterexample :
    (read_message ⟨lspPingBytes, some .ndjson⟩).1 =
      some (.obj [(strB "id", .num 2)]) ∧
    read_ndjson_from (readline lspPingBytes).1 = none ∧
    (read_message ⟨lspPingBytes, some .ndjson⟩).2.mode = some .ndjson :=
  ⟨rfl, rfl, rfl⟩

/-- C5 (amended): the cached framing is set by the first read and never
changes afterwards, and every reply is encoded under the cached framing; but
the decode rule applied to each incoming message is re-chosen per message
from that message's own first line (ndjson iff the left-stripped line starts
with a brace or bracket, lsp otherwise), independent of the cache. -/
theorem c5_mode_cached_write_only :
    (∀ st f, st.mode = some f → (read_message st).2.mode = some f) ∧
    (∀ (env : ToolEnv) (mode : Option Framing) (req : Json) e,
      e ∈ (dispatch env mode req).1 → e.1 = framingUsed mode) ∧
    (∀ st line rest, readline st.stdin = (line, rest) → line ≠ [] →
      (read_message st).1 =
        if [123].isPrefixOf (lstripB line) || [91].isPrefixOf (lstripB line) then
          read_ndjson_from line
        else (read_lsp_from line rest).1) := by
  refine ⟨?_, ?_, ?_⟩
  · intro st f hf
    simp only [read_message]
    split
    · exact hf
    · split <;> simp [hf]
  · intro env mode req e he
    match req with
    | .obj ms =>
        simp only [dispatch] at he
        match hid : pyGet ms (strB "id") with
        | none => rw [hid] at he; simp at he
        | some .null => rw [hid] at he; simp at he
        | some (.bool b) =>
            rw [hid] at he
            obtain ⟨p, hp, -⟩ := handle_request_one_reply env mode (.bool b) ms
            simp only [hp] at he
            simp only [List.mem_singleton] at he
            rw [he]
        | some (.num n) =>
            rw [hid] at he
            obtain ⟨p, hp, -⟩ := handle_request_one_reply env mode (.num n) ms
            simp only [hp] at he
            simp only [List.mem_singleton] at he
            rw [he]
        | some (.str s) =>
            rw [hid] at he
            obtain ⟨p, hp, -⟩ := handle_request_one_reply env mode (.str s) ms
            simp only [hp] at he
            simp only [List.mem_singleton] at he
            rw [he]
        | some (.arr es) =>
            rw [hid] at he
            obtain ⟨p, hp, -⟩ := handle_request_one_reply env mode (.arr es) ms
            simp only [hp] at he
            simp only [List.mem_singleton] at he
            rw [he]
        | some (.obj ms2) =>
            rw [hid] at he
            obtain ⟨p, hp, -⟩ := handle_request_one_reply env mode (.obj ms2) ms
            simp only [hp] at he
            simp only [List.mem_singleton] at he
            rw [he]
    | .null => simp [dispatch] at he
    | .bool b => simp [dispatch] at he
    | .num n => simp [dispatch] at he
    | .str s => simp [dispatch] at he
    | .arr es => simp [dispatch] at he
  · intro st line rest hrl hne
    simp only [read_message, hrl]
    rw [if_neg hne]
    split <;> rfl

/-- Closed instance of the amended C5: the cache survives a read (applied at
the counterexample stream), and a reply to a ping is encoded under the
cached lsp framing. -/
theorem c5_mode_cached_write_only_witness :
    (read_message ⟨lspPingBytes, some .ndjson⟩).2.mode = some .ndjson ∧
    ∀ e, e ∈ (dispatch envOk (some .lsp) pingReq).1 → e.1 = framingUsed (some .lsp) :=
  ⟨c5_mode_cached_write_only.1 ⟨lspPingBytes, some .ndjson⟩ .ndjson rfl,
   fun e he => c5_mode_cached_write_only.2.1 envOk (some .lsp) pingReq e he⟩

/-- C4 counterexample: on a stream holding a malformed line followed by a
valid ping request, the server writes no reply at all — the decode failure
terminates the read loop, and the following request is never served — while
the same ping alone is answered.  This contradicts both the internal-error
reply and the loop-continues parts of the claim. -/
theorem c4_counterexample :
    server_run envOk (badJsonLine ++ pingLine) = [] ∧
    server_run envOk pingLine =
      [(.ndjson, write_result_payload (.num 1) (.obj []))] :=
  ⟨rfl, rfl⟩

/-- C4 (amended): whenever `read_message` returns `none` — end of stream or
a decode failure, which the code does not distinguish — the main loop exits
at once, writing no reply (no internal-error reply, no drop-and-continue);
the proxy, by contrast, forwards bytes unchanged around unparseable content
(shown here on the malformed line). -/
theorem c4_decode_failure_exits_loop (env : ToolEnv) (st : ServerSt)
    (h : (read_message st).1 = none) :
    (∀ fuel, server_loopF fuel env st = []) ∧
    (pump badJsonLine).dst = badJsonLine := by
  constructor
  · intro fuel
    cases fuel with
    | zero => rfl
    | succ f =>
        simp only [server_loopF]
        match hrm : read_message st with
        | (msg, st2) =>
            rw [hrm] at h
            simp only at h
            subst h
            rfl
  · rfl

/-- Closed instance of the amended C4 at the malformed line. -/
theorem c4_decode_failure_exits_loop_witness :
    (∀ fuel, server_loopF fuel envOk ⟨badJsonLine, none⟩ = []) ∧
    (pump badJsonLine).dst = badJsonLine :=
  c4_decode_failure_exits_loop envOk ⟨badJsonLine, none⟩ rfl

/-! ### Round-trip machinery: strings -/

theorem hexVal_hexDigit (d : Nat) (h : d < 16) : hexVal (hexDigit d) = some d := by
  interval_cases d <;> rfl

theorem escapeCharBytes_len1 (c : Nat) : 1 ≤ (escapeCharBytes c).length := by
  rw [escapeCharBytes]
  split_ifs <;> first
    | simp
    | (rw [utf8EncodeChar]; split_ifs <;> simp)

theorem flatMap_escape_len (s : List Nat) :
    s.length ≤ (s.flatMap escapeCharBytes).length := by
  induction s with
  | nil => simp
  | cons c cs ih =>
      simp only [List.flatMap_cons, List.length_append, List.length_cons]
      have := escapeCharBytes_len1 c
      omega

/-- Scanning the escaped bytes of one valid character recovers it and hands
the scanner the remaining input with one unit of fuel spent. -/
theorem parseStrContentF_char (c : Nat) (hv : validCp c = true) (fuel : Nat)
    (tail : Bytes) :
    parseStrContentF (fuel + 1) (escapeCharBytes c ++ tail) =
      mapCons c (parseStrContentF fuel tail) := by
  have hvc : c < 1114112 ∧ ¬(55296 ≤ c ∧ c < 57344) := by
    simp only [validCp, Bool.and_eq_true, decide_eq_true_eq, Bool.not_eq_true',
      Bool.and_eq_false_iff, decide_eq_false_iff_not] at hv
    constructor
    · exact hv.1
    · rcases hv.2 with h | h
      · omega
      · omega
  simp only [escapeCharBytes]
  split_ifs with h1 h2 h3 h4 h5 h6 h7 h8
  · subst h1; rfl
  · subst h2; rfl
  · subst h3; rfl
  · subst h4; rfl
  · subst h5; rfl
  · subst h6; rfl
  · subst h7; rfl
  · -- control character below space: lowercase \u00xx escape
    have hx1 := hexVal_hexDigit (c / 16) (by omega)
    have hx2 := hexVal_hexDigit (c % 16) (by omega)
    show (match (match hexVal 48, hexVal 48, hexVal (hexDigit (c / 16)),
          hexVal (hexDigit (c % 16)) with
      | some x, some y, some z, some w =>
          let cp := x * 4096 + y * 256 + z * 16 + w
          (if 55296 ≤ cp ∧ cp ≤ 56319 then
            (match tail with
             | 92 :: 117 :: a2 :: b2 :: c2 :: d2 :: r3 =>
                 (match hexVal a2, hexVal b2, hexVal c2, hexVal d2 with
                 | some x2, some y2, some z2, some w2 =>
                     let lo := x2 * 4096 + y2 * 256 + z2 * 16 + w2
                     if 56320 ≤ lo ∧ lo ≤ 57343 then
                       some (65536 + (cp - 55296) * 1024 + (lo - 56320), r3)
                     else some (cp, tail)
                 | _, _, _, _ => none)
             | 92 :: 117 :: _ => none
             | _ => some (cp, tail))
          else some (cp, tail))
      | _, _, _, _ => none : Option (Nat × Bytes)) with
      | some (cp, r2) => mapCons cp (parseStrContentF fuel r2)
      | none => none) = mapCons c (parseStrContentF fuel tail)
    rw [hx1, hx2]
    show (match (if 55296 ≤ 0 * 4096 + 0 * 256 + c / 16 * 16 + c % 16 ∧
          0 * 4096 + 0 * 256 + c / 16 * 16 + c % 16 ≤ 56319 then _ else
        some (0 * 4096 + 0 * 256 + c / 16 * 16 + c % 16, tail) :
          Option (Nat × Bytes)) with
      | some (cp, r2) => mapCons cp (parseStrContentF fuel r2)
      | none => none) = _
    rw [if_neg (show ¬(55296 ≤ 0 * 4096 + 0 * 256 + c / 16 * 16 + c % 16 ∧
        0 * 4096 + 0 * 256 + c / 16 * 16 + c % 16 ≤ 56319) by omega)]
    show mapCons (0 * 4096 + 0 * 256 + c / 16 * 16 + c % 16)
        (parseStrContentF fuel tail) = _
    have hcp : 0 * 4096 + 0 * 256 + c / 16 * 16 + c % 16 = c := by omega
    rw [hcp]
  · -- raw character: UTF-8 bytes
    simp only [utf8EncodeChar]
    split_ifs with u1 u2 u3
    · -- one byte
      simp only [List.singleton_append, parseStrContentF]
      rw [if_neg h1, if_neg h2]
      simp only [decodeRaw]
      rw [if_neg h8, if_pos u1]
      rfl
    · -- two bytes
      simp only [List.cons_append, List.nil_append, parseStrContentF]
      rw [if_neg (show ¬(192 + c / 64 = 34) by omega),
        if_neg (show ¬(192 + c / 64 = 92) by omega)]
      simp only [decodeRaw, List.append_eq, List.cons_append, List.singleton_append,
        List.nil_append]
      rw [if_neg (show ¬(192 + c / 64 < 32) by omega),
        if_neg (show ¬(192 + c / 64 < 128) by omega),
        if_pos (show 194 ≤ 192 + c / 64 ∧ 192 + c / 64 ≤ 223 by omega),
        if_pos (show 128 ≤ 128 + c % 64 ∧ 128 + c % 64 ≤ 191 by omega)]
      have hcp : (192 + c / 64 - 192) * 64 + (128 + c % 64 - 128) = c := by omega
      rw [hcp]
    · -- three bytes
      simp only [List.cons_append, List.nil_append, parseStrContentF]
      rw [if_neg (show ¬(224 + c / 4096 = 34) by omega),
        if_neg (show ¬(224 + c / 4096 = 92) by omega)]
      simp only [decodeRaw, List.append_eq, List.cons_append, List.singleton_append,
        List.nil_append]
      rw [if_neg (show ¬(224 + c / 4096 < 32) by omega),
        if_neg (show ¬(224 + c / 4096 < 128) by omega),
        if_neg (show ¬(194 ≤ 224 + c / 4096 ∧ 224 + c / 4096 ≤ 223) by omega),
        if_pos (show 224 ≤ 224 + c / 4096 ∧ 224 + c / 4096 ≤ 239 by omega)]
      rw [if_pos (show (128 ≤ 128 + c / 64 % 64 ∧ 128 + c / 64 % 64 ≤ 191) ∧
          (128 ≤ 128 + c % 64 ∧ 128 + c % 64 ≤ 191) ∧
          (224 + c / 4096 = 224 → 160 ≤ 128 + c / 64 % 64) ∧
          (224 + c / 4096 = 237 → 128 + c / 64 % 64 ≤ 159) by
        obtain ⟨hlt, hs⟩ := hvc
        refine ⟨⟨by omega, by omega⟩, ⟨by omega, by omega⟩, ?_, ?_⟩ <;> omega)]
      have hcp : (224 + c / 4096 - 224) * 4096 + (128 + c / 64 % 64 - 128) * 64 +
          (128 + c % 64 - 128) = c := by omega
      rw [hcp]
    · -- four bytes
      simp only [List.cons_append, List.nil_append, parseStrContentF]
      rw [if_neg (show ¬(240 + c / 262144 = 34) by omega),
        if_neg (show ¬(240 + c / 262144 = 92) by omega)]
      simp only [decodeRaw, List.append_eq, List.cons_append, List.singleton_append,
        List.nil_append]
      rw [if_neg (show ¬(240 + c / 262144 < 32) by omega),
        if_neg (show ¬(240 + c / 262144 < 128) by omega),
        if_neg (show ¬(194 ≤ 240 + c / 262144 ∧ 240 + c / 262144 ≤ 223) by omega),
        if_neg (show ¬(224 ≤ 240 + c / 262144 ∧ 240 + c / 262144 ≤ 239) by omega),
        if_pos (show 240 ≤ 240 + c / 262144 ∧ 240 + c / 262144 ≤ 244 by
          obtain ⟨hlt, hs⟩ := hvc
          omega)]
      rw [if_pos (show (128 ≤ 128 + c / 4096 % 64 ∧ 128 + c / 4096 % 64 ≤ 191) ∧
          (128 ≤ 128 + c / 64 % 64 ∧ 128 + c / 64 % 64 ≤ 191) ∧
          (128 ≤ 128 + c % 64 ∧ 128 + c % 64 ≤ 191) ∧
          (240 + c / 262144 = 240 → 144 ≤ 128 + c / 4096 % 64) ∧
          (240 + c / 262144 = 244 → 128 + c / 4096 % 64 ≤ 143) by
        obtain ⟨hlt, hs⟩ := hvc
        refine ⟨⟨by omega, by omega⟩, ⟨by omega, by omega⟩, ⟨by omega, by omega⟩,
          ?_, ?_⟩ <;> omega)]
      have hcp : (240 + c / 262144 - 240) * 262144 + (128 + c / 4096 % 64 - 128) * 4096 +
          (128 + c / 64 % 64 - 128) * 64 + (128 + c % 64 - 128) = c := by omega
      rw [hcp]

/-- Scanning a serialised string body recovers the string. -/
theorem parseStrContentF_ser (s : List Nat) : ∀ (rest : Bytes) (fuel : Nat),
    validStr s = true → s.length < fuel →
    parseStrContentF fuel (s.flatMap escapeCharBytes ++ (34 :: rest)) =
      some (s, rest) := by
  induction s with
  | nil =>
      intro rest fuel _ hf
      match fuel, hf with
      | f + 1, _ => rfl
  | cons c cs ih =>
      intro rest fuel hv hf
      simp only [validStr, List.all_cons, Bool.and_eq_true] at hv
      match fuel, hf with
      | f + 1, hf =>
          rw [List.flatMap_cons, List.append_assoc, parseStrContentF_char c hv.1 f,
            ih rest f (by simpa [validStr] using hv.2) (by simp at hf; omega)]
          rfl

/-- The string scanner (with its internal fuel) inverts the serialiser. -/
theorem parseStrContent_ser (s : List Nat) (rest : Bytes) (hv : validStr s = true) :
    parseStrContent (s.flatMap escapeCharBytes ++ (34 :: rest)) = some (s, rest) := by
  rw [parseStrContent]
  apply parseStrContentF_ser s rest _ hv
  have h1 := flatMap_escape_len s
  simp only [List.length_append, List.length_cons]
  omega

theorem natDigits_ne_nil (m : Nat) : natDigits m ≠ [] := by
  rw [natDigits_eq]
  split <;> simp

theorem natDigits_digits (m : Nat) : ∀ x ∈ natDigits m, 48 ≤ x ∧ x ≤ 57 := by
  induction m using Nat.strongRecOn with
  | ind m ih =>
      rw [natDigits_eq]
      split
      · intro x hx
        simp only [List.mem_singleton] at hx
        omega
      · intro x hx
        rw [List.mem_append] at hx
        rcases hx with hx | hx
        · exact ih (m / 10) (Nat.div_lt_self (by omega) (by omega)) x hx
        · simp only [List.mem_singleton] at hx
          have := Nat.mod_lt m (show 0 < 10 by omega)
          omega

theorem natDigits_head1 (m : Nat) (hm : 1 ≤ m) :
    ∃ d ds, natDigits m = d :: ds ∧ 49 ≤ d ∧ d ≤ 57 := by
  induction m using Nat.strongRecOn with
  | ind m ih =>
      rw [natDigits_eq]
      split
      · exact ⟨48 + m, [], rfl, by omega, by omega⟩
      · rename_i h10
        obtain ⟨d, ds, hds, h1, h2⟩ :=
          ih (m / 10) (Nat.div_lt_self (by omega) (by omega))
            (by omega)
        exact ⟨d, ds ++ [48 + m % 10], by rw [hds]; rfl, h1, h2⟩

/-- `parseDigitsRun` consumes exactly a digit run, folding up its value. -/
theorem parseDigitsRun_append (ds : Bytes) (hds : ∀ d ∈ ds, 48 ≤ d ∧ d ≤ 57) :
    ∀ (acc : Nat) (rest : Bytes), goodTail rest →
      parseDigitsRun acc (ds ++ rest) =
        (ds.foldl (fun a d => a * 10 + (d - 48)) acc, rest) := by
  induction ds with
  | nil =>
      intro acc rest hrest
      match rest with
      | [] => rfl
      | c :: t =>
          simp only [List.nil_append, List.foldl_nil, parseDigitsRun]
          rw [if_neg (by rcases hrest with h | h | h <;> omega)]
  | cons d ds ih =>
      intro acc rest hrest
      have hd := hds d (by simp)
      simp only [List.cons_append, parseDigitsRun, List.foldl_cons]
      rw [if_pos (by omega)]
      exact ih (fun x hx => hds x (by simp [hx])) _ rest hrest

/-- Folding decimal digits of `m` onto `acc` yields `acc·10^k + m`. -/
theorem foldl_natDigits (m : Nat) : ∀ acc : Nat,
    (natDigits m).foldl (fun a d => a * 10 + (d - 48)) acc =
      acc * 10 ^ (natDigits m).length + m := by
  induction m using Nat.strongRecOn with
  | ind m ih =>
      intro acc
      rw [natDigits_eq]
      split
      · simp only [List.foldl_cons, List.foldl_nil, List.length_singleton, pow_one]
        omega
      · rename_i h10
        rw [List.foldl_append, ih (m / 10) (Nat.div_lt_self (by omega) (by omega)),
          List.length_append]
        simp only [List.foldl_cons, List.foldl_nil, List.length_singleton]
        rw [pow_succ, ← Nat.mul_assoc]
        have hmod := Nat.div_add_mod m 10
        have h48 : 48 + m % 10 - 48 = m % 10 := by omega
        rw [h48]
        generalize acc * 10 ^ (natDigits (m / 10)).length = A
        omega

/-- `parseIntPart` inverts `natDigits` when the remainder cannot extend the
digit run. -/
theorem parseIntPart_natDigits (m : Nat) (rest : Bytes) (hrest : goodTail rest) :
    parseIntPart (natDigits m ++ rest) = some (m, rest) := by
  by_cases hm : m = 0
  · subst hm
    rfl
  · obtain ⟨d, ds, hds, h1, h2⟩ := natDigits_head1 m (by omega)
    rw [hds]
    simp only [List.cons_append, parseIntPart]
    rw [if_neg (by omega), if_pos (by omega)]
    have hdig : ∀ x ∈ ds, 48 ≤ x ∧ x ≤ 57 := fun x hx =>
      natDigits_digits m x (by rw [hds]; simp [hx])
    rw [parseDigitsRun_append ds hdig (d - 48) rest hrest]
    have hv := foldl_natDigits m 0
    rw [hds] at hv
    simp only [List.foldl_cons, Nat.zero_mul, Nat.zero_add] at hv
    rw [hv]

/-- `numFinish` accepts a good tail. -/
theorem numFinish_goodTail (m : Int) (rest : Bytes) (hrest : goodTail rest) :
    numFinish m rest = some (.num m, rest) := by
  match rest with
  | [] => rfl
  | c :: t =>
      simp only [numFinish]
      rw [if_neg (by rcases hrest with h | h | h <;> omega)]

/-- The number scanner inverts the integer serialiser. -/
theorem parseNum_intSer (n : Int) (rest : Bytes) (hrest : goodTail rest) :
    parseNum (intSer n ++ rest) = some (.num n, rest) := by
  by_cases hn : n < 0
  · simp only [intSer, if_pos hn, List.cons_append, parseNum, if_true]
    rw [parseIntPart_natDigits n.natAbs rest hrest]
    show numFinish (-(n.natAbs : Int)) rest = _
    have : -(n.natAbs : Int) = n := by omega
    rw [this, numFinish_goodTail n rest hrest]
  · simp only [intSer, if_neg hn]
    obtain ⟨d, ds, hds, h1, h2⟩ :
        ∃ d ds, natDigits n.natAbs = d :: ds ∧ 48 ≤ d ∧ d ≤ 57 := by
      match h : natDigits n.natAbs with
      | [] => exact absurd h (natDigits_ne_nil _)
      | d :: ds =>
          have := natDigits_digits n.natAbs d (by rw [h]; simp)
          exact ⟨d, ds, rfl, this.1, this.2⟩
    rw [hds]
    simp only [List.cons_append, parseNum]
    rw [if_neg (by omega), ← List.cons_append, ← hds,
      parseIntPart_natDigits n.natAbs rest hrest]
    show numFinish ((n.natAbs : Nat) : Int) rest = _
    have : ((n.natAbs : Nat) : Int) = n := by omega
    rw [this, numFinish_goodTail n rest hrest]

/-! ### Round-trip machinery: values -/

theorem intSer_head (n : Int) :
    ∃ d ds, intSer n = d :: ds ∧ (d = 45 ∨ (48 ≤ d ∧ d ≤ 57)) := by
  rw [intSer]
  split_ifs
  · exact ⟨45, natDigits n.natAbs, rfl, Or.inl rfl⟩
  · match h : natDigits n.natAbs with
    | [] => exact absurd h (natDigits_ne_nil _)
    | d :: ds =>
        exact ⟨d, ds, rfl, Or.inr (natDigits_digits _ d (by rw [h]; simp))⟩

theorem serJ_head (v : Json) : ∃ c cs, serJ v = c :: cs ∧ jsonWs c = false ∧
    c ≠ 93 ∧ c ≠ 125 := by
  cases v with
  | null => exact ⟨110, _, rfl, rfl, by omega, by omega⟩
  | bool b =>
      cases b
      · exact ⟨102, _, rfl, rfl, by omega, by omega⟩
      · exact ⟨116, _, rfl, rfl, by omega, by omega⟩
  | num n =>
      obtain ⟨d, ds, hds, hd⟩ := intSer_head n
      refine ⟨d, ds, hds, ?_, by omega, by omega⟩
      simp only [jsonWs, Bool.or_eq_false_iff, decide_eq_false_iff_not]
      omega
  | str s => exact ⟨34, _, rfl, rfl, by omega, by omega⟩
  | arr es => exact ⟨91, _, rfl, rfl, by omega, by omega⟩
  | obj ms => exact ⟨123, _, rfl, rfl, by omega, by omega⟩

theorem serJ_len1 (v : Json) : 1 ≤ (serJ v).length := by
  obtain ⟨c, cs, h, -⟩ := serJ_head v
  simp [h]

theorem skipWs_cons {c : Nat} (r : Bytes) (h : jsonWs c = false) :
    skipWs (c :: r) = c :: r := by
  simp [skipWs, List.dropWhile_cons, h]

theorem goodTail_elemSep (es : List Json) (rest : Bytes) :
    goodTail (serElemSep es ++ 93 :: rest) := by
  cases es with
  | nil => simp [serElemSep, goodTail]
  | cons e es => simp [serElemSep, goodTail]

theorem goodTail_memberSep (ms : List (List Nat × Json)) (rest : Bytes) :
    goodTail (serMemberSep ms ++ 125 :: rest) := by
  cases ms with
  | nil => simp [serMemberSep, goodTail]
  | cons m ms =>
      obtain ⟨k, v⟩ := m
      simp [serMemberSep, goodTail]

/-- Unfolding of `parseVal` on a sign or digit head byte: the scanner falls
through to the number rule. -/
theorem parseVal_num_cons (f d : Nat) (Y : Bytes)
    (hd : d = 45 ∨ (48 ≤ d ∧ d ≤ 57)) :
    parseVal (f + 1) (d :: Y) = parseNum (d :: Y) := by
  have hws : jsonWs d = false := by
    simp only [jsonWs, Bool.or_eq_false_iff, decide_eq_false_iff_not]
    omega
  show (match skipWs (d :: Y) with
    | [] => none
    | c :: r => _) = parseNum (d :: Y)
  rw [skipWs_cons Y hws]
  show (if d = 110 then _ else if d = 116 then _ else if d = 102 then _ else
    if d = 34 then _ else if d = 91 then _ else if d = 123 then _ else
    parseNum (d :: Y)) = parseNum (d :: Y)
  rw [if_neg (show ¬(d = 110) by omega), if_neg (show ¬(d = 116) by omega),
    if_neg (show ¬(d = 102) by omega), if_neg (show ¬(d = 34) by omega),
    if_neg (show ¬(d = 91) by omega), if_neg (show ¬(d = 123) by omega)]

/-- Unfolding of `parseVal` on an array opener followed by a non-bracket,
non-whitespace byte: the scanner commits to a nonempty array. -/
theorem parseVal_arr_cons (f : Nat) (c0 : Nat) (Y : Bytes)
    (hws : jsonWs c0 = false) (h93 : c0 ≠ 93) :
    parseVal (f + 1) (91 :: c0 :: Y) =
      (match parseVal f (c0 :: Y) with
       | some (v, r2) =>
           (match parseArrTail f r2 with
            | some (vs, r3) => some (.arr (v :: vs), r3)
            | none => none)
       | none => none) := by
  show (match skipWs (c0 :: Y) with
    | 93 :: r2 => some (Json.arr [], r2)
    | _ =>
        (match parseVal f (c0 :: Y) with
         | some (v, r2) =>
             (match parseArrTail f r2 with
              | some (vs, r3) => some (Json.arr (v :: vs), r3)
              | none => none)
         | none => none)) = _
  rw [skipWs_cons Y hws]
  split
  · rename_i heq
    simp only [List.cons.injEq] at heq
    omega
  · rfl

mutual

/-- The value scanner inverts the serialiser on every valid JSON value. -/
theorem rt_val : ∀ (v : Json) (rest : Bytes) (fuel : Nat), validJ v = true →
    goodTail rest → (serJ v).length ≤ fuel →
    parseVal fuel (serJ v ++ rest) = some (v, rest)
  | .null, rest, fuel, _, _, hfuel => by
      match fuel, hfuel with
      | f + 1, _ => rfl
  | .bool true, rest, fuel, _, _, hfuel => by
      match fuel, hfuel with
      | f + 1, _ => rfl
  | .bool false, rest, fuel, _, _, hfuel => by
      match fuel, hfuel with
      | f + 1, _ => rfl
  | .num n, rest, fuel, hv, hrest, hfuel => by
      obtain ⟨d, ds, hds, hd⟩ := intSer_head n
      have hfuel2 : 1 ≤ fuel := by
        have := serJ_len1 (.num n)
        omega
      match fuel, hfuel2 with
      | f + 1, _ =>
          show parseVal (f + 1) (intSer n ++ rest) = _
          rw [hds, List.cons_append, parseVal_num_cons f d _ hd,
            ← List.cons_append, ← hds]
          exact parseNum_intSer n rest hrest
  | .str s, rest, fuel, hv, hrest, hfuel => by
      have hfuel2 : 1 ≤ fuel := by
        have := serJ_len1 (.str s)
        omega
      match fuel, hfuel2 with
      | f + 1, _ =>
          show (match parseStrContent ((s.flatMap escapeCharBytes ++ [34]) ++ rest) with
            | some (s2, r2) => some (Json.str s2, r2)
            | none => none) = some (.str s, rest)
          rw [List.append_assoc, List.singleton_append,
            parseStrContent_ser s rest (by simpa [validJ] using hv)]
  | .arr [], rest, fuel, _, _, hfuel => by
      have hfuel2 : 1 ≤ fuel := by
        have := serJ_len1 (.arr [])
        omega
      match fuel, hfuel2 with
      | f + 1, _ => rfl
  | .arr (e :: es), rest, fuel, hv, hrest, hfuel => by
      have hval : validJ e = true ∧ validElems es = true := by
        simp only [validJ, validElems, Bool.and_eq_true] at hv
        exact hv
      obtain ⟨c0, cs0, hc0, hws, h93, h125⟩ := serJ_head e
      have hlen : (serJ (.arr (e :: es))).length =
          (serJ e).length + (serElemSep es).length + 2 := by
        rw [show serJ (.arr (e :: es)) =
          91 :: ((serJ e ++ serElemSep es) ++ [93]) from rfl]
        simp [List.length_append]
        omega
      have hfuel2 : (serJ e).length + (serElemSep es).length + 2 ≤ fuel := by
        omega
      match fuel, hfuel2 with
      | f + 1, hf2 =>
          have hfe : (serJ e).length ≤ f := by omega
          have hft : (serElemSep es).length + 1 ≤ f := by
            have := serJ_len1 e
            omega
          have harr : serJ (.arr (e :: es)) ++ rest =
              91 :: (c0 :: (cs0 ++ (serElemSep es ++ 93 :: rest))) := by
            rw [show serJ (.arr (e :: es)) =
              91 :: ((serJ e ++ serElemSep es) ++ [93]) from rfl, hc0]
            simp
          rw [harr, parseVal_arr_cons f c0 _ hws h93,
            show c0 :: (cs0 ++ (serElemSep es ++ 93 :: rest)) =
              serJ e ++ (serElemSep es ++ 93 :: rest) by rw [hc0]; rfl,
            rt_val e (serElemSep es ++ 93 :: rest) f hval.1
              (goodTail_elemSep es rest) hfe]
          show (match parseArrTail f (serElemSep es ++ 93 :: rest) with
            | some (vs, r3) => some (Json.arr (e :: vs), r3)
            | none => none) = some (.arr (e :: es), rest)
          rw [rt_arrTail es rest f hval.2 hft]
  | .obj [], rest, fuel, _, _, hfuel => by
      have hfuel2 : 1 ≤ fuel := by
        have := serJ_len1 (.obj [])
        omega
      match fuel, hfuel2 with
      | f + 1, _ => rfl
  | .obj ((k, v) :: ms), rest, fuel, hv, hrest, hfuel => by
      have hval : validStr k = true ∧ validJ v = true ∧ validMembers ms = true := by
        simp only [validJ, validMembers, Bool.and_eq_true] at hv
        exact ⟨hv.1.1, hv.1.2, hv.2⟩
      have hlen : (serJ (.obj ((k, v) :: ms))).length =
          (serStrB k).length + (serJ v).length + (serMemberSep ms).length + 3 := by
        rw [show serJ (.obj ((k, v) :: ms)) =
          123 :: ((serStrB k ++ (58 :: (serJ v ++ serMemberSep ms))) ++ [125]) from rfl]
        simp [List.length_append]
        omega
      have hklen : 2 ≤ (serStrB k).length := by
        rw [show serStrB k = 34 :: (k.flatMap escapeCharBytes ++ [34]) from rfl]
        simp
      have hfuel2 : 1 ≤ fuel := by omega
      match fuel, hfuel2 with
      | f + 1, hf2 =>
          have hfm : (serJ v).length + 1 ≤ f := by omega
          have hft : (serMemberSep ms).length + 1 ≤ f := by
            have := serJ_len1 v
            omega
          have hobj : serJ (.obj ((k, v) :: ms)) ++ rest =
              123 :: (serStrB k ++ (58 :: (serJ v ++ (serMemberSep ms ++ 125 :: rest)))) := by
            rw [show serJ (.obj ((k, v) :: ms)) =
              123 :: ((serStrB k ++ (58 :: (serJ v ++ serMemberSep ms))) ++ [125]) from rfl]
            simp
          rw [hobj]
          show (match parseMember f
              (serStrB k ++ (58 :: (serJ v ++ (serMemberSep ms ++ 125 :: rest)))) with
            | some (k2, v2, r2) =>
                (match parseObjTail f r2 with
                 | some (ms2, r3) => some (Json.obj ((k2, v2) :: ms2), r3)
                 | none => none)
            | none => none) = some (.obj ((k, v) :: ms), rest)
          rw [rt_member k v (serMemberSep ms ++ 125 :: rest) f hval.1 hval.2.1
              (goodTail_memberSep ms rest) hfm]
          show (match parseObjTail f (serMemberSep ms ++ 125 :: rest) with
            | some (ms2, r3) => some (Json.obj ((k, v) :: ms2), r3)
            | none => none) = some (.obj ((k, v) :: ms), rest)
          rw [rt_objTail ms rest f hval.2.2 hft]
termination_by v _ _ _ _ _ => sizeOf v

/-- The member scanner inverts the serialisation of one `"key": value`. -/
theorem rt_member : ∀ (k : List Nat) (v : Json) (tail : Bytes) (fuel : Nat),
    validStr k = true → validJ v = true → goodTail tail →
    (serJ v).length + 1 ≤ fuel →
    parseMember fuel (serStrB k ++ (58 :: (serJ v ++ tail))) = some (k, v, tail)
  | k, v, tail, fuel, hk, hv, htail, hfuel => by
      match fuel, hfuel with
      | f + 1, hfuel =>
          show (match parseStrContent
              ((k.flatMap escapeCharBytes ++ [34]) ++ (58 :: (serJ v ++ tail))) with
            | some (k2, r2) =>
                (match skipWs r2 with
                 | 58 :: r3 =>
                     (match parseVal f r3 with
                      | some (v2, r4) => some (k2, v2, r4)
                      | none => none)
                 | _ => none)
            | none => none) = some (k, v, tail)
          rw [List.append_assoc, List.singleton_append,
            parseStrContent_ser k _ hk]
          show (match parseVal f (serJ v ++ tail) with
            | some (v2, r4) => some (k, v2, r4)
            | none => none) = some (k, v, tail)
          rw [rt_val v tail f hv htail (by omega)]
termination_by _ v _ _ _ _ _ _ => sizeOf v + 1

/-- The array-tail scanner inverts the serialised element separators. -/
theorem rt_arrTail : ∀ (es : List Json) (rest : Bytes) (fuel : Nat),
    validElems es = true → (serElemSep es).length + 1 ≤ fuel →
    parseArrTail fuel (serElemSep es ++ 93 :: rest) = some (es, rest)
  | [], rest, fuel, _, hfuel => by
      match fuel, hfuel with
      | f + 1, _ => rfl
  | e :: es, rest, fuel, hv, hfuel => by
      have hval : validJ e = true ∧ validElems es = true := by
        simp only [validElems, Bool.and_eq_true] at hv
        exact hv
      have hlen : (serElemSep (e :: es)).length =
          (serJ e).length + (serElemSep es).length + 1 := by
        simp only [serElemSep, List.length_cons, List.length_append]
      match fuel, hfuel with
      | f + 1, hfuel =>
          have hsep : serElemSep (e :: es) ++ 93 :: rest =
              44 :: (serJ e ++ (serElemSep es ++ 93 :: rest)) := by
            simp [serElemSep]
          rw [hsep]
          show (match parseVal f (serJ e ++ (serElemSep es ++ 93 :: rest)) with
            | some (v, r2) =>
                (match parseArrTail f r2 with
                 | some (vs, r3) => some (v :: vs, r3)
                 | none => none)
            | none => none) = some (e :: es, rest)
          rw [rt_val e (serElemSep es ++ 93 :: rest) f hval.1
              (goodTail_elemSep es rest) (by omega)]
          show (match parseArrTail f (serElemSep es ++ 93 :: rest) with
            | some (vs, r3) => some (e :: vs, r3)
            | none => none) = some (e :: es, rest)
          rw [rt_arrTail es rest f hval.2 (by have := serJ_len1 e; omega)]
termination_by es _ _ _ _ => sizeOf es

/-- The object-tail scanner inverts the serialised member separators. -/
theorem rt_objTail : ∀ (ms : List (List Nat × Json)) (rest : Bytes) (fuel : Nat),
    validMembers ms = true → (serMemberSep ms).length + 1 ≤ fuel →
    parseObjTail fuel (serMemberSep ms ++ 125 :: rest) = some (ms, rest)
  | [], rest, fuel, _, hfuel => by
      match fuel, hfuel with
      | f + 1, _ => rfl
  | (k, v) :: ms, rest, fuel, hv, hfuel => by
      have hval : validStr k = true ∧ validJ v = true ∧ validMembers ms = true := by
        simp only [validMembers, Bool.and_eq_true] at hv
        exact ⟨hv.1.1, hv.1.2, hv.2⟩
      have hlen : (serMemberSep ((k, v) :: ms)).length =
          (serStrB k).length + (serJ v).length + (serMemberSep ms).length + 2 := by
        simp only [serMemberSep, List.length_cons, List.length_append]
        omega
      match fuel, hfuel with
      | f + 1, hfuel =>
          have hsep : serMemberSep ((k, v) :: ms) ++ 125 :: rest =
              44 :: (serStrB k ++ (58 :: (serJ v ++ (serMemberSep ms ++ 125 :: rest)))) := by
            simp [serMemberSep]
          rw [hsep]
          show (match parseMember f
              (serStrB k ++ (58 :: (serJ v ++ (serMemberSep ms ++ 125 :: rest)))) with
            | some (k2, v2, r2) =>
                (match parseObjTail f r2 with
                 | some (ms2, r3) => some ((k2, v2) :: ms2, r3)
                 | none => none)
            | none => none) = some ((k, v) :: ms, rest)
          have hklen : 2 ≤ (serStrB k).length := by
            rw [show serStrB k = 34 :: (k.flatMap escapeCharBytes ++ [34]) from rfl]
            simp
          rw [rt_member k v (serMemberSep ms ++ 125 :: rest) f hval.1 hval.2.1
              (goodTail_memberSep ms rest) (by omega)]
          show (match parseObjTail f (serMemberSep ms ++ 125 :: rest) with
            | some (ms2, r3) => some ((k, v) :: ms2, r3)
            | none => none) = some ((k, v) :: ms, rest)
          rw [rt_objTail ms rest f hval.2.2 (by have := serJ_len1 v; omega)]
termination_by ms _ _ _ _ => sizeOf ms

end

/-- `json.loads` inverts the serialiser on every valid value. -/
theorem pyLoads_serJ (v : Json) (hv : validJ v = true) : pyLoads (serJ v) = some v := by
  have h := rt_val v [] ((serJ v).length + 1) hv trivial (by omega)
  rw [List.append_nil] at h
  rw [pyLoads, h]
  rfl

/-! ### Framing lemmas: the serialised body contains no CR or LF -/

theorem hexDigit_ge48 (d : Nat) : 48 ≤ hexDigit d := by
  rw [hexDigit]
  split <;> omega

theorem escapeCharBytes_ge32 (c : Nat) : ∀ x ∈ escapeCharBytes c, 32 ≤ x := by
  rw [escapeCharBytes]
  split_ifs with h1 h2 h3 h4 h5 h6 h7 h8
  · decide
  · decide
  · decide
  · decide
  · decide
  · decide
  · decide
  · intro x hx
    simp only [List.mem_cons, List.not_mem_nil, or_false] at hx
    have g1 := hexDigit_ge48 (c / 16)
    have g2 := hexDigit_ge48 (c % 16)
    rcases hx with rfl | rfl | rfl | rfl | rfl | rfl <;> omega
  · rw [utf8EncodeChar]
    split_ifs with u1 u2 u3
    · intro x hx
      simp only [List.mem_singleton] at hx
      omega
    · intro x hx
      simp only [List.mem_cons, List.not_mem_nil, or_false] at hx
      rcases hx with rfl | rfl <;> omega
    · intro x hx
      simp only [List.mem_cons, List.not_mem_nil, or_false] at hx
      rcases hx with rfl | rfl | rfl <;> omega
    · intro x hx
      simp only [List.mem_cons, List.not_mem_nil, or_false] at hx
      rcases hx with rfl | rfl | rfl | rfl <;> omega

theorem serStrB_ge32 (s : List Nat) : ∀ x ∈ serStrB s, 32 ≤ x := by
  intro x hx
  simp only [serStrB, List.mem_cons, List.mem_append, List.mem_singleton,
    List.mem_flatMap, List.not_mem_nil, or_false] at hx
  rcases hx with rfl | ⟨c, -, hc⟩ | rfl
  · omega
  · exact escapeCharBytes_ge32 c x hc
  · omega

theorem intSer_ge32 (n : Int) : ∀ x ∈ intSer n, 32 ≤ x := by
  intro x hx
  rw [intSer] at hx
  split_ifs at hx
  · simp only [List.mem_cons] at hx
    rcases hx with rfl | hx
    · omega
    · have := natDigits_digits n.natAbs x hx
      omega
  · have := natDigits_digits n.natAbs x hx
    omega

mutual

/-- Every byte of a serialised JSON value is at or above the space byte; in
particular the body contains no LF, CR, or other control bytes. -/
theorem serJ_ge32 : ∀ (v : Json), ∀ x ∈ serJ v, 32 ≤ x
  | .null => by decide
  | .bool true => by decide
  | .bool false => by decide
  | .num n => intSer_ge32 n
  | .str s => serStrB_ge32 s
  | .arr es => by
      intro x hx
      simp only [serJ, List.mem_cons, List.mem_append, List.mem_singleton,
        List.not_mem_nil, or_false] at hx
      rcases hx with rfl | hx | rfl
      · omega
      · exact serElems_ge32 es x hx
      · omega
  | .obj ms => by
      intro x hx
      simp only [serJ, List.mem_cons, List.mem_append, List.mem_singleton,
        List.not_mem_nil, or_false] at hx
      rcases hx with rfl | hx | rfl
      · omega
      · exact serMembers_ge32 ms x hx
      · omega
termination_by v => sizeOf v

/-- Bytes of serialised array elements. -/
theorem serElems_ge32 : ∀ (es : List Json), ∀ x ∈ serElems es, 32 ≤ x
  | [] => by intro x hx; simp [serElems] at hx
  | e :: es => by
      intro x hx
      simp only [serElems, List.mem_append] at hx
      rcases hx with hx | hx
      · exact serJ_ge32 e x hx
      · exact serElemSep_ge32 es x hx
termination_by es => sizeOf es

/-- Bytes of the element-separator continuation. -/
theorem serElemSep_ge32 : ∀ (es : List Json), ∀ x ∈ serElemSep es, 32 ≤ x
  | [] => by intro x hx; simp [serElemSep] at hx
  | e :: es => by
      intro x hx
      simp only [serElemSep, List.mem_cons, List.mem_append] at hx
      rcases hx with rfl | hx | hx
      · omega
      · exact serJ_ge32 e x hx
      · exact serElemSep_ge32 es x hx
termination_by es => sizeOf es

/-- Bytes of serialised object members. -/
theorem serMembers_ge32 : ∀ (ms : List (List Nat × Json)), ∀ x ∈ serMembers ms, 32 ≤ x
  | [] => by intro x hx; simp [serMembers] at hx
  | (k, v) :: ms => by
      intro x hx
      simp only [serMembers, List.mem_append, List.mem_cons] at hx
      rcases hx with hx | rfl | hx | hx
      · exact serStrB_ge32 k x hx
      · omega
      · exact serJ_ge32 v x hx
      · exact serMemberSep_ge32 ms x hx
termination_by ms => sizeOf ms

/-- Bytes of the member-separator continuation. -/
theorem serMemberSep_ge32 : ∀ (ms : List (List Nat × Json)), ∀ x ∈ serMemberSep ms, 32 ≤ x
  | [] => by intro x hx; simp [serMemberSep] at hx
  | (k, v) :: ms => by
      intro x hx
      simp only [serMemberSep, List.mem_cons, List.mem_append] at hx
      rcases hx with rfl | hx | rfl | hx | hx
      · omega
      · exact serStrB_ge32 k x hx
      · omega
      · exact serJ_ge32 v x hx
      · exact serMemberSep_ge32 ms x hx
termination_by ms => sizeOf ms

end

/-! ### Framing lemmas: first-occurrence search and stripping -/

theorem findSub_none (p : Nat) (pt : Bytes) (b : Bytes) (hb : ∀ x ∈ b, x ≠ p) :
    findSub (p :: pt) b = none := by
  induction b with
  | nil => rfl
  | cons c r ih =>
      have hside : ¬((p :: pt).isPrefixOf (c :: r) = true) := by
        intro hpre
        rw [List.isPrefixOf_iff_prefix] at hpre
        obtain ⟨t, ht⟩ := hpre
        rw [List.cons_append] at ht
        injection ht with hh1 hh2
        exact hb c (by simp) hh1.symm
      simp only [findSub]
      rw [if_neg hside, ih (fun x hx => hb x (by simp [hx]))]
      rfl

theorem findSub_boundary (p : Nat) (pt : Bytes) (xs tail : Bytes)
    (hx : ∀ x ∈ xs, x ≠ p) (hpre : (p :: pt).isPrefixOf tail = true) :
    findSub (p :: pt) (xs ++ tail) = some xs.length := by
  induction xs with
  | nil =>
      match tail, hpre with
      | c :: t, hpre =>
          simp only [List.nil_append, findSub, List.length_nil]
          rw [if_pos hpre]
  | cons x xs ih =>
      have hside : ¬((p :: pt).isPrefixOf (x :: (xs ++ tail)) = true) := by
        intro hpre2
        rw [List.isPrefixOf_iff_prefix] at hpre2
        obtain ⟨t, ht⟩ := hpre2
        rw [List.cons_append] at ht
        injection ht with hh1 hh2
        exact hx x (by simp) hh1.symm
      simp only [List.cons_append, findSub, List.append_eq]
      rw [if_neg hside, ih (fun y hy => hx y (by simp [hy]))]
      rfl

theorem dropWhile_false {p : Nat → Bool} :
    ∀ l : Bytes, (∀ x ∈ l, p x = false) → l.dropWhile p = l := by
  intro l h
  induction l with
  | nil => rfl
  | cons c r ih =>
      rw [List.dropWhile_cons, if_neg (by simp [h c (by simp)])]

theorem rstripCRLF_body (xs : Bytes) (hx : ∀ x ∈ xs, 32 ≤ x) :
    rstripCRLF (xs ++ [10]) = xs := by
  rw [rstripCRLF, List.reverse_append]
  show ((10 :: xs.reverse).dropWhile _).reverse = xs
  rw [List.dropWhile_cons, if_pos (by simp)]
  rw [dropWhile_false xs.reverse (by
    intro x hxm
    rw [List.mem_reverse] at hxm
    have := hx x hxm
    simp only [Bool.or_eq_false_iff, decide_eq_false_iff_not]
    omega)]
  simp

theorem pyWs_false_of_ge33 {x : Nat} (h : 33 ≤ x) : pyWs x = false := by
  simp only [pyWs, Bool.or_eq_false_iff, decide_eq_false_iff_not]
  omega

theorem stripB_digits (l : Bytes) (hl : ∀ x ∈ l, 48 ≤ x ∧ x ≤ 57) :
    stripB l = l := by
  rw [stripB, lstripB,
    dropWhile_false l (fun x hx => pyWs_false_of_ge33 (by have := hl x hx; omega)),
    rstripB,
    dropWhile_false l.reverse (fun x hx =>
      pyWs_false_of_ge33 (by have := hl x (List.mem_reverse.mp hx); omega)),
    List.reverse_reverse]

theorem stripB_space_digits (l : Bytes) (hl : ∀ x ∈ l, 48 ≤ x ∧ x ≤ 57) :
    stripB (32 :: l) = l := by
  rw [stripB, lstripB, List.dropWhile_cons, if_pos (by simp [pyWs])]
  rw [dropWhile_false l (fun x hx => pyWs_false_of_ge33 (by have := hl x hx; omega))]
  rw [rstripB,
    dropWhile_false l.reverse (fun x hx =>
      pyWs_false_of_ge33 (by have := hl x (List.mem_reverse.mp hx); omega)),
    List.reverse_reverse]

theorem isPrefixOf_self_append (p rest : Bytes) : p.isPrefixOf (p ++ rest) = true := by
  induction p with
  | nil => simp [List.isPrefixOf]
  | cons c r ih => simp [List.isPrefixOf, ih]

theorem intDigitsRest_digits : ∀ (ds : Bytes) (acc : Nat),
    (∀ d ∈ ds, 48 ≤ d ∧ d ≤ 57) →
    intDigitsRest acc ds = some (ds.foldl (fun a d => a * 10 + (d - 48)) acc)
  | [], acc, _ => rfl
  | d :: ds, acc, h => by
      have hd := h d (by simp)
      unfold intDigitsRest
      rw [if_pos ⟨hd.1, hd.2⟩]
      exact intDigitsRest_digits ds _ (fun x hx => h x (by simp [hx]))

theorem take_append_len (l₁ l₂ : Bytes) : (l₁ ++ l₂).take l₁.length = l₁ := by
  induction l₁ with
  | nil => rfl
  | cons c r ih => simp [ih]

theorem drop_append_len (l₁ l₂ : Bytes) : (l₁ ++ l₂).drop l₁.length = l₂ := by
  induction l₁ with
  | nil => rfl
  | cons c r ih => simp [ih]

/-- Python int() inverts the decimal rendering of a natural number. -/
theorem pyIntParse_natDigits (n : Nat) : pyIntParse (natDigits n) = some (n : Int) := by
  obtain ⟨d, ds, hds, hd1, hd2⟩ : ∃ d ds, natDigits n = d :: ds ∧ 48 ≤ d ∧ d ≤ 57 := by
    match h : natDigits n with
    | [] => exact absurd h (natDigits_ne_nil n)
    | d :: ds =>
        have := natDigits_digits n d (by rw [h]; simp)
        exact ⟨d, ds, rfl, this.1, this.2⟩
  have hdig : ∀ x ∈ natDigits n, 48 ≤ x ∧ x ≤ 57 := natDigits_digits n
  unfold pyIntParse
  rw [stripB_digits _ hdig, hds]
  split
  · rename_i r heq
    injection heq with hh1 hh2
    exact absurd hh1 (by omega)
  · rename_i r heq
    injection heq with hh1 hh2
    exact absurd hh1 (by omega)
  · show (unsignedIntParse (d :: ds)).map (fun m => (m : Int)) = some (n : Int)
    simp only [unsignedIntParse]
    rw [if_pos ⟨hd1, hd2⟩,
      intDigitsRest_digits ds (d - 48) (fun x hx => hdig x (by rw [hds]; simp [hx]))]
    have hv := foldl_natDigits n 0
    rw [hds] at hv
    simp only [List.foldl_cons, Nat.zero_mul, Nat.zero_add] at hv
    rw [hv]
    rfl

/-- `bytes.split` on a header blob: one header line, then the blank line and
the trailing empty piece. -/
theorem splitCRLF_header (xs : Bytes) (hx : ∀ x ∈ xs, x ≠ 13) :
    splitCRLF (xs ++ [13, 10, 13, 10]) = [xs, [], []] := by
  have hlen : (xs ++ [13, 10, 13, 10]).length = xs.length + 3 + 1 := by
    simp only [List.length_append, List.length_cons, List.length_nil]
  rw [splitCRLF, hlen]
  simp only [splitCRLFF]
  rw [findSub_boundary 13 [10] xs [13, 10, 13, 10] hx
    (isPrefixOf_self_append [13, 10] [13, 10])]
  show (xs ++ [13, 10, 13, 10]).take xs.length ::
      splitCRLFF (xs.length + 3) ((xs ++ [13, 10, 13, 10]).drop (xs.length + 2)) =
      [xs, [], []]
  have htake : (xs ++ [13, 10, 13, 10]).take xs.length = xs := take_append_len xs _
  have hdrop : (xs ++ [13, 10, 13, 10]).drop (xs.length + 2) = [13, 10] := by
    rw [show xs ++ [13, 10, 13, 10] = (xs ++ [13, 10]) ++ [13, 10] by simp,
      show xs.length + 2 = ((xs ++ [13, 10]) : Bytes).length by simp,
      drop_append_len]
  rw [htake, hdrop, show splitCRLFF (xs.length + 3) [13, 10] = [[], []] from rfl]

/-- The debugger's NDJSON rule extracts exactly the encoded line with the full
consumed count (including the newline) from `write_message`'s NDJSON output. -/
theorem try_parse_ndjson_encode (v : Json) (rest : Bytes) :
    try_parse_ndjson (write_ndjson_bytes v ++ rest) =
      some (serJ v, (serJ v).length + 1) := by
  have hser := serJ_ge32 v
  have hb : write_ndjson_bytes v ++ rest = serJ v ++ (10 :: rest) := by
    rw [write_ndjson_bytes]
    simp
  rw [hb]
  unfold try_parse_ndjson
  rw [findSub_boundary 10 [] (serJ v) (10 :: rest)
    (fun x hx => by have := hser x hx; omega) (isPrefixOf_self_append [10] rest)]
  show some (rstripCRLF ((serJ v ++ (10 :: rest)).take ((serJ v).length + 1)),
      (serJ v).length + 1) =
    some (serJ v, (serJ v).length + 1)
  have htake : (serJ v ++ (10 :: rest)).take ((serJ v).length + 1) = serJ v ++ [10] := by
    rw [show serJ v ++ (10 :: rest) = (serJ v ++ [10]) ++ rest by simp,
      show (serJ v).length + 1 = ((serJ v ++ [10]) : Bytes).length by simp,
      take_append_len]
  rw [htake, rstripCRLF_body (serJ v) hser]

/-- The debugger's LSP rule extracts exactly the encoded body with the full
consumed count from the server's LSP writer output. -/
theorem try_parse_lsp_encode (v : Json) (rest : Bytes) :
    try_parse_lsp (write_lsp_bytes v ++ rest) =
      some (serJ v, (write_lsp_bytes v).length) := by
  have hser := serJ_ge32 v
  have hlen1 := serJ_len1 v
  have hdig : ∀ x ∈ natDigits (serJ v).length, 48 ≤ x ∧ x ≤ 57 :=
    natDigits_digits (serJ v).length
  have hCL13 : ∀ x ∈ strB "Content-Length: ", x ≠ 13 := by decide
  have hhdr13 : ∀ x ∈ strB "Content-Length: " ++ natDigits (serJ v).length, x ≠ 13 := by
    intro x hxm
    rw [List.mem_append] at hxm
    rcases hxm with hxm | hxm
    · exact hCL13 x hxm
    · have := hdig x hxm
      omega
  have hfull : write_lsp_bytes v ++ rest =
      (strB "Content-Length: " ++ natDigits (serJ v).length) ++
        ([13, 10, 13, 10] ++ (serJ v ++ rest)) := by
    rw [write_lsp_bytes]
    simp
  have hblob : ((strB "Content-Length: " ++ natDigits (serJ v).length) ++
      ([13, 10, 13, 10] ++ (serJ v ++ rest))).take
        ((strB "Content-Length: " ++ natDigits (serJ v).length).length + 4) =
      (strB "Content-Length: " ++ natDigits (serJ v).length) ++ [13, 10, 13, 10] := by
    rw [show (strB "Content-Length: " ++ natDigits (serJ v).length) ++
        ([13, 10, 13, 10] ++ (serJ v ++ rest)) =
        ((strB "Content-Length: " ++ natDigits (serJ v).length) ++ [13, 10, 13, 10]) ++
          (serJ v ++ rest) by simp,
      show (strB "Content-Length: " ++ natDigits (serJ v).length).length + 4 =
        (((strB "Content-Length: " ++ natDigits (serJ v).length) ++
          [13, 10, 13, 10]) : Bytes).length by simp [Nat.add_assoc],
      take_append_len]
  have hsplitCol : strB "Content-Length: " ++ natDigits (serJ v).length =
      strB "Content-Length" ++ (58 :: (32 :: natDigits (serJ v).length)) := rfl
  have hfind58 : findSub [58] (strB "Content-Length: " ++ natDigits (serJ v).length) =
      some 14 := by
    rw [hsplitCol,
      findSub_boundary 58 [] (strB "Content-Length")
        (58 :: (32 :: natDigits (serJ v).length)) (by decide)
        (isPrefixOf_self_append [58] (32 :: natDigits (serJ v).length))]
    rfl
  have hne : strB "Content-Length: " ++ natDigits (serJ v).length ≠ [] := by
    intro h
    have := congrArg List.length h
    simp [strB] at this
  have htake14 : (strB "Content-Length: " ++ natDigits (serJ v).length).take 14 =
      strB "Content-Length" := by
    rw [hsplitCol, show (14 : Nat) = (strB "Content-Length").length from rfl,
      take_append_len]
  have hdrop15 : (strB "Content-Length: " ++ natDigits (serJ v).length).drop 15 =
      32 :: natDigits (serJ v).length := by
    rw [hsplitCol,
      show strB "Content-Length" ++ (58 :: (32 :: natDigits (serJ v).length)) =
        (strB "Content-Length" ++ [58]) ++ (32 :: natDigits (serJ v).length) by simp,
      show (15 : Nat) = ((strB "Content-Length" ++ [58]) : Bytes).length from rfl,
      drop_append_len]
  have hline : parseHeaderLines
      [strB "Content-Length: " ++ natDigits (serJ v).length, [], []] =
      [(strB "content-length", natDigits (serJ v).length)] := by
    simp only [parseHeaderLines, List.foldl_cons, List.foldl_nil]
    rw [if_neg hne, hfind58]
    show dictSet []
        (bytesLower (stripB ((strB "Content-Length: " ++
          natDigits (serJ v).length).take 14)))
        (stripB ((strB "Content-Length: " ++ natDigits (serJ v).length).drop 15)) =
      [(strB "content-length", natDigits (serJ v).length)]
    rw [htake14, hdrop15, stripB_space_digits _ hdig]
    rfl
  have hdget : dictGet [(strB "content-length", natDigits (serJ v).length)]
      (strB "content-length") = some (natDigits (serJ v).length) := rfl
  rw [hfull]
  unfold try_parse_lsp
  rw [findSub_boundary 13 [10, 13, 10]
    (strB "Content-Length: " ++ natDigits (serJ v).length)
    ([13, 10, 13, 10] ++ (serJ v ++ rest)) hhdr13
    (isPrefixOf_self_append [13, 10, 13, 10] (serJ v ++ rest))]
  simp only [hblob, splitCRLF_header _ hhdr13, hline, hdget, Option.getD_some,
    pyIntParse_natDigits]
  have hA : ¬(((serJ v).length : Int) ≤ 0) := by omega
  rw [if_neg hA]
  have hT : ((serJ v).length : Int).toNat = (serJ v).length := by omega
  rw [hT]
  have hB : ¬(((strB "Content-Length: " ++ natDigits (serJ v).length) ++
      ([13, 10, 13, 10] ++ (serJ v ++ rest))).length <
      (strB "Content-Length: " ++ natDigits (serJ v).length).length + 4 +
        (serJ v).length) := by
    simp only [List.length_append, List.length_cons, List.length_nil]
    omega
  rw [if_neg hB]
  have hdropBody : ((strB "Content-Length: " ++ natDigits (serJ v).length) ++
      ([13, 10, 13, 10] ++ (serJ v ++ rest))).drop
        ((strB "Content-Length: " ++ natDigits (serJ v).length).length + 4) =
      serJ v ++ rest := by
    rw [show (strB "Content-Length: " ++ natDigits (serJ v).length) ++
        ([13, 10, 13, 10] ++ (serJ v ++ rest)) =
        ((strB "Content-Length: " ++ natDigits (serJ v).length) ++ [13, 10, 13, 10]) ++
          (serJ v ++ rest) by simp,
      show (strB "Content-Length: " ++ natDigits (serJ v).length).length + 4 =
        (((strB "Content-Length: " ++ natDigits (serJ v).length) ++
          [13, 10, 13, 10]) : Bytes).length by simp [Nat.add_assoc],
      drop_append_len]
  rw [hdropBody, take_append_len]
  have hconsumed : (strB "Content-Length: " ++ natDigits (serJ v).length).length + 4 +
      (serJ v).length = (write_lsp_bytes v).length := by
    rw [write_lsp_bytes]
    simp only [List.length_append, List.length_cons, List.length_nil]
  rw [hconsumed]

/-- C6: a buffer holding one NDJSON-encoded message followed by arbitrary
trailing bytes is decoded by the NDJSON rule to the original message, with a
consumed count equal to the encoded length including the newline terminator;
a buffer containing no newline is reported incomplete (the rule returns the
none signal and its callers consume nothing). -/
theorem c6_ndjson_consumed (v : Json) (rest : Bytes) (hv : validJ v = true) :
    (∃ line, try_parse_ndjson (write_ndjson_bytes v ++ rest) =
        some (line, (write_ndjson_bytes v).length) ∧ pyLoads line = some v) ∧
    (∀ b : Bytes, (∀ x ∈ b, x ≠ 10) → try_parse_ndjson b = none) := by
  constructor
  · refine ⟨serJ v, ?_, pyLoads_serJ v hv⟩
    rw [try_parse_ndjson_encode v rest, write_ndjson_bytes]
    simp
  · intro b hb
    unfold try_parse_ndjson
    rw [findSub_none 10 [] b hb]

theorem c6_ndjson_consumed_witness :
    (∃ line,
        try_parse_ndjson (write_ndjson_bytes (.obj [(strB "id", .num 7)]) ++ strB "XY") =
          some (line, (write_ndjson_bytes (.obj [(strB "id", .num 7)])).length) ∧
        pyLoads line = some (.obj [(strB "id", .num 7)])) ∧
    (∀ b : Bytes, (∀ x ∈ b, x ≠ 10) → try_parse_ndjson b = none) :=
  c6_ndjson_consumed (.obj [(strB "id", .num 7)]) (strB "XY") (by decide)

/-- C3: for every serializable value and each framing, decoding the bytes
produced by encoding the value under that framing yields the value again. -/
theorem c3_roundtrip (v : Json) (hv : validJ v = true) :
    decode_message .ndjson (encode_message .ndjson v) = some v ∧
    decode_message .lsp (encode_message .lsp v) = some v := by
  constructor
  · show (match try_parse_ndjson (write_ndjson_bytes v) with
      | some (line, _) => pyLoads line
      | none => none) = some v
    have h := try_parse_ndjson_encode v []
    rw [List.append_nil] at h
    rw [h]
    show pyLoads (serJ v) = some v
    exact pyLoads_serJ v hv
  · show (match try_parse_lsp (write_lsp_bytes v) with
      | some (body, _) => pyLoads body
      | none => none) = some v
    have h := try_parse_lsp_encode v []
    rw [List.append_nil] at h
    rw [h]
    show pyLoads (serJ v) = some v
    exact pyLoads_serJ v hv

theorem c3_roundtrip_witness :
    decode_message .ndjson
        (encode_message .ndjson (.obj [(strB "a", .str (strB "b"))])) =
      some (.obj [(strB "a", .str (strB "b"))]) ∧
    decode_message .lsp (encode_message .lsp (.obj [(strB "a", .str (strB "b"))])) =
      some (.obj [(strB "a", .str (strB "b"))]) :=
  c3_roundtrip (.obj [(strB "a", .str (strB "b"))]) (by decide)

end Upnote
